import Mathlib

/-!
Verification of the mind-map layout engine from `src/components/mind-map.tsx`.

The canonical (collapse-capable) variant of `generateMindMapNodesAndEdges` is
embedded below together with the `onToggle` collapse-state update.  Numbers
that the TypeScript source manipulates are IEEE doubles; every value the
layout produces on the inputs considered here is a small dyadic rational, so
coordinates and heights are embedded as `Rat` (exact arithmetic agrees with
the doubles on this range).  The two spacing constants `nodeHeight = 120` and
`levelWidth = 300` are bound by `const` declarations at the top of the source
function; the embedding makes the function body parametric in those two
`let`-bound constants (`generateMindMapNodesAndEdgesWith`) and instantiates
them at 120 and 300 (`generateMindMapNodesAndEdges`), which is the only
instantiation the source ever performs.

Fields of the emitted records that are constant strings in the source
(`type: "custom"`, `sourcePosition: "right"`, `targetPosition: "left"`,
and the `className` template, whose only data is the level) are represented
by keeping the `level` field; the `onToggle` callback stored in node data is
a function value irrelevant to layout and is omitted.
-/

namespace MindMap

/-- The input tree type, `MindMapData` in the source: a text label plus an
optional list of children (an absent `children` field behaves exactly like an
empty list, so it is embedded as `List`). -/
inductive MindMapData where
  | mk (text : String) (children : List MindMapData)

/-- Projection for the `text` field of `MindMapData`. -/
def MindMapData.text : MindMapData → String
  | .mk t _ => t

/-- Projection for the `children` field of `MindMapData` (absent means `[]`). -/
def MindMapData.children : MindMapData → List MindMapData
  | .mk _ cs => cs

/-- A node record pushed onto the `nodes` array by the source: its `id`, the
`position` pair (x, y), the `label` stored in `data`, the depth `level`
(which the source stores in the `className` template and uses for `x`), and
the `hasChildren` and `isCollapsed` flags stored in `data`. -/
structure LayoutNode where
  id : String
  x : ℚ
  y : ℚ
  label : String
  level : Nat
  hasChildren : Bool
  isCollapsed : Bool
deriving DecidableEq

/-- An edge record pushed onto the `edges` array by the source: the id
template `e${parentId}-${nodeId}` plus `source` and `target`. -/
structure LayoutEdge where
  id : String
  source : String
  target : String
deriving DecidableEq

/-- The id template from line 84 of the source: `${parentId}-${index}`. -/
def childId (p : String) (i : Nat) : String := p ++ "-" ++ Nat.repr i

/-- The constant `nodeHeight = 120` bound on line 85 of the source. -/
def nodeHeight : ℚ := 120

/-- The constant `levelWidth = 300` bound on line 86 of the source. -/
def levelWidth : ℚ := 300

mutual

/-- The body of `generateMindMapNodesAndEdges` (source lines 73 to 178),
parametric in the two `let`-bound constants `nodeHeight` and `levelWidth`.
The mutable accumulator arrays `nodes` and `edges` of the source become
explicit list arguments that every branch extends by appending, and the
returned object `{ nodes, edges, height }` becomes the returned triple.
The `forEach` loop over the children (with its running `currentY` cursor and
the accumulated child heights) is the mutually recursive `genChildrenWith`.
The falsy fallback `...?.position.y || yOffset` of lines 116 to 121 is
transcribed as: on a missing node use `yOffset`, and on a found node whose
`y` is `0` (the only falsy rational) also use `yOffset`. -/
def generateMindMapNodesAndEdgesWith (nodeHeight levelWidth : ℚ)
    (data : MindMapData) (collapsedNodes : Finset String)
    (parentId : Option String) (nodes : List LayoutNode) (edges : List LayoutEdge)
    (level : Nat) (index : Nat) (yOffset : ℚ) :
    List LayoutNode × List LayoutEdge × ℚ :=
  match data with
  | .mk text children =>
    let nodeId := match parentId with
      | some p => childId p index
      | none => "n0"
    let isCollapsed : Bool := decide (nodeId ∈ collapsedNodes)
    let hasChildren : Bool := !children.isEmpty
    if hasChildren && !isCollapsed then
      let res := genChildrenWith nodeHeight levelWidth children collapsedNodes nodeId
        nodes edges (level + 1) 0 yOffset
      let totalHeight := res.2.2
      let firstChildY := match res.1.find? (fun n => n.id = childId nodeId 0) with
        | some n => if n.y = 0 then yOffset else n.y
        | none => yOffset
      let lastChildIndex := children.length - 1
      let lastChildY := match res.1.find? (fun n => n.id = childId nodeId lastChildIndex) with
        | some n => if n.y = 0 then yOffset else n.y
        | none => yOffset
      let centerY := (firstChildY + lastChildY) / 2
      let nodes2 := res.1 ++ [⟨nodeId, (level : ℚ) * levelWidth, centerY, text, level,
        hasChildren, isCollapsed⟩]
      let edges2 := match parentId with
        | some p => res.2.1 ++ [⟨"e" ++ p ++ "-" ++ nodeId, p, nodeId⟩]
        | none => res.2.1
      (nodes2, edges2, totalHeight)
    else
      let nodes2 := nodes ++ [⟨nodeId, (level : ℚ) * levelWidth, yOffset, text, level,
        hasChildren, isCollapsed⟩]
      let edges2 := match parentId with
        | some p => edges ++ [⟨"e" ++ p ++ "-" ++ nodeId, p, nodeId⟩]
        | none => edges
      (nodes2, edges2, nodeHeight)
termination_by structural data

/-- The `forEach` loop of source lines 96 to 110: lays the children out left
to right, threading the accumulators, incrementing the sibling index and
advancing the cursor by each returned height; the third component is the sum
of the child heights (`totalHeight` of line 113). -/
def genChildrenWith (nodeHeight levelWidth : ℚ) (cs : List MindMapData)
    (collapsedNodes : Finset String) (pid : String)
    (nodes : List LayoutNode) (edges : List LayoutEdge)
    (level : Nat) (index : Nat) (y : ℚ) :
    List LayoutNode × List LayoutEdge × ℚ :=
  match cs with
  | [] => (nodes, edges, 0)
  | c :: rest =>
    let r := generateMindMapNodesAndEdgesWith nodeHeight levelWidth c collapsedNodes
      (some pid) nodes edges level index y
    let r2 := genChildrenWith nodeHeight levelWidth rest collapsedNodes pid r.1 r.2.1
      level (index + 1) (y + r.2.2)
    (r2.1, r2.2.1, r.2.2 + r2.2.2)
termination_by structural cs

end

/-- The source function with its two constants instantiated as on lines 85
and 86, and with the default arguments of lines 77 to 82. -/
def generateMindMapNodesAndEdges (data : MindMapData) (collapsedNodes : Finset String)
    (parentId : Option String := none) (nodes : List LayoutNode := [])
    (edges : List LayoutEdge := []) (level : Nat := 0) (index : Nat := 0)
    (yOffset : ℚ := 0) : List LayoutNode × List LayoutEdge × ℚ :=
  generateMindMapNodesAndEdgesWith nodeHeight levelWidth data collapsedNodes parentId
    nodes edges level index yOffset

/-- The top-level invocation of line 201 of the source: all defaults. -/
def mindMapLayout (data : MindMapData) (collapsedNodes : Finset String) :
    List LayoutNode × List LayoutEdge × ℚ :=
  generateMindMapNodesAndEdges data collapsedNodes

/-- The `onToggle` callback of source lines 187 to 197: copy the set, then
delete the id if present and add it otherwise.  The JavaScript `Set` is
embedded as a `Finset`, whose equality is the membership equality that the
copied set shares with the original. -/
def onToggle (prev : Finset String) (id : String) : Finset String :=
  if id ∈ prev then prev.erase id else insert id prev


lemma digitChar_ne_dash (m : Nat) (h : m < 10) : Nat.digitChar m ≠ '-' := by
  interval_cases m <;> decide

lemma digitChar_val (m : Nat) (h : m < 10) : (Nat.digitChar m).toNat - 48 = m := by
  interval_cases m <;> decide

lemma toDigitsCore_ne_dash : ∀ (fuel n : Nat) (ds : List Char),
    (∀ c ∈ ds, c ≠ '-') → ∀ c ∈ Nat.toDigitsCore 10 fuel n ds, c ≠ '-' := by
  intro fuel
  induction fuel with
  | zero => intro n ds hds c hc; exact hds c hc
  | succ fuel ih =>
    intro n ds hds c hc
    rw [Nat.toDigitsCore] at hc
    by_cases h : n / 10 = 0
    · simp only [h, if_pos rfl] at hc
      rcases List.mem_cons.mp hc with h1 | h1
      · subst h1; exact digitChar_ne_dash _ (Nat.mod_lt _ (by norm_num))
      · exact hds c h1
    · simp only [h, if_neg h] at hc
      refine ih _ _ ?_ c hc
      intro c' hc'
      rcases List.mem_cons.mp hc' with h1 | h1
      · subst h1; exact digitChar_ne_dash _ (Nat.mod_lt _ (by norm_num))
      · exact hds c' h1

lemma toDigits_ne_dash (n : Nat) : ∀ c ∈ Nat.toDigits 10 n, c ≠ '-' := by
  intro c hc
  exact toDigitsCore_ne_dash _ _ _ (by intro c h; exact absurd h (List.not_mem_nil c)) c hc

lemma toDigitsCore_eq_append : ∀ (n fuel : Nat), n ≤ fuel → ∀ ds : List Char,
    Nat.toDigitsCore 10 (fuel + 1) n ds = Nat.toDigits 10 n ++ ds := by
  intro n
  induction n using Nat.strong_induction_on with
  | _ n ih =>
    intro fuel hn ds
    rw [Nat.toDigits, Nat.toDigitsCore, Nat.toDigitsCore]
    by_cases h : n / 10 = 0
    · simp [h]
    · have hnpos : 0 < n := Nat.pos_of_ne_zero (by intro h0; subst h0; simp at h)
      have hn10 : n / 10 < n := Nat.div_lt_self hnpos (by norm_num)
      have hfuel : 0 < fuel := by omega
      have e1 : Nat.toDigitsCore 10 fuel (n / 10) (Nat.digitChar (n % 10) :: ds)
          = Nat.toDigits 10 (n / 10) ++ (Nat.digitChar (n % 10) :: ds) := by
        have := ih (n / 10) hn10 (fuel - 1) (by omega) (Nat.digitChar (n % 10) :: ds)
        rwa [Nat.sub_add_cancel hfuel] at this
      have e2 : Nat.toDigitsCore 10 n (n / 10) [Nat.digitChar (n % 10)]
          = Nat.toDigits 10 (n / 10) ++ [Nat.digitChar (n % 10)] := by
        have := ih (n / 10) hn10 (n - 1) (by omega) [Nat.digitChar (n % 10)]
        rwa [Nat.sub_add_cancel hnpos] at this
      simp [h, e1, e2]

lemma toDigits_eq_append (n : Nat) :
    Nat.toDigits 10 n = (if n / 10 = 0 then [] else Nat.toDigits 10 (n / 10))
      ++ [Nat.digitChar (n % 10)] := by
  rw [Nat.toDigits, Nat.toDigitsCore]
  by_cases h : n / 10 = 0
  · simp [h]
  · have hnpos : 0 < n := Nat.pos_of_ne_zero (by intro h0; subst h0; simp at h)
    have hn10 : n / 10 < n := Nat.div_lt_self hnpos (by norm_num)
    have e2 := toDigitsCore_eq_append (n / 10) (n - 1) (by omega) [Nat.digitChar (n % 10)]
    rw [Nat.sub_add_cancel hnpos] at e2
    simp [h, e2]

def digitsVal (l : List Char) : Nat :=
  l.foldl (fun a c => 10 * a + (c.toNat - 48)) 0

lemma digitsVal_toDigits (n : Nat) : digitsVal (Nat.toDigits 10 n) = n := by
  induction n using Nat.strong_induction_on with
  | _ n ih =>
    rw [digitsVal, toDigits_eq_append n]
    by_cases h : n / 10 = 0
    · have hn : n < 10 := by omega
      simp only [h, if_pos rfl, List.nil_append, List.foldl]
      rw [digitChar_val _ (Nat.mod_lt _ (by norm_num))]
      omega
    · have hnpos : 0 < n := Nat.pos_of_ne_zero (by intro h0; subst h0; simp at h)
      have hn10 : n / 10 < n := Nat.div_lt_self hnpos (by norm_num)
      simp only [h, if_neg h, if_false, List.foldl_append, List.foldl]
      have hih := ih (n / 10) hn10
      rw [digitsVal] at hih
      rw [hih, digitChar_val _ (Nat.mod_lt _ (by norm_num))]
      omega

lemma toDigits_injective (m n : Nat) (h : Nat.toDigits 10 m = Nat.toDigits 10 n) :
    m = n := by
  have := digitsVal_toDigits m
  rw [h, digitsVal_toDigits] at this
  omega

lemma repr_data (n : Nat) : (Nat.repr n).data = Nat.toDigits 10 n := rfl

lemma repr_injective (m n : Nat) (h : Nat.repr m = Nat.repr n) : m = n := by
  apply toDigits_injective
  rw [← repr_data, ← repr_data, h]

lemma toDigits_ne_nil (n : Nat) : Nat.toDigits 10 n ≠ [] := by
  rw [toDigits_eq_append n]
  simp

/-- Character lists free of the separator character. -/
def NoDash (l : List Char) : Prop := ∀ c ∈ l, c ≠ '-'

/-- Shape of the remainder of a descendant id past an ancestor id: either
empty (the node itself) or a separator followed by more path text. -/
def TailShape (t : List Char) : Prop := t = [] ∨ ∃ u, t = '-' :: u

/-- The id `x` lies in the id subtree rooted at `base`: it is `base` itself
or `base` extended by a separator and more text. -/
def IdExt (base x : String) : Prop :=
  ∃ t, x.data = base.data ++ t ∧ TailShape t

lemma noDash_repr (i : Nat) : NoDash (Nat.repr i).data := by
  intro c hc
  rw [repr_data] at hc
  exact toDigits_ne_dash i c hc

lemma repr_data_ne_nil (i : Nat) : (Nat.repr i).data ≠ [] := by
  rw [repr_data]; exact toDigits_ne_nil i

lemma dash_split : ∀ xs ys as bs : List Char,
    xs ++ '-' :: as = ys ++ '-' :: bs → NoDash xs → NoDash ys →
    xs = ys ∧ as = bs := by
  intro xs
  induction xs with
  | nil =>
    intro ys as bs h hx hy
    cases ys with
    | nil => simpa using h
    | cons y ys2 =>
      simp only [List.nil_append, List.cons_append, List.cons.injEq] at h
      exact absurd h.1.symm (hy y (List.mem_cons_self y ys2))
  | cons x xs2 ih =>
    intro ys as bs h hx hy
    cases ys with
    | nil =>
      simp only [List.nil_append, List.cons_append, List.cons.injEq] at h
      exact absurd h.1 (hx x (List.mem_cons_self x xs2))
    | cons y ys2 =>
      simp only [List.cons_append, List.cons.injEq] at h
      obtain ⟨h1, h2⟩ := h
      obtain ⟨h3, h4⟩ := ih ys2 as bs h2 (fun c hc => hx c (List.mem_cons_of_mem x hc))
        (fun c hc => hy c (List.mem_cons_of_mem y hc))
      exact ⟨by rw [h1, h3], h4⟩

lemma tail_disjoint : ∀ xs as ys bs : List Char,
    xs ++ as = ys ++ bs → NoDash xs → NoDash ys → TailShape as → TailShape bs →
    xs = ys ∧ as = bs := by
  intro xs as ys bs h hx hy ha hb
  rcases ha with ha | ⟨ua, ha⟩ <;> rcases hb with hb | ⟨ub, hb⟩
  · subst ha; subst hb; simpa using h
  · subst ha; subst hb
    simp only [List.append_nil] at h
    subst h
    exact absurd rfl (hx '-' (List.mem_append.mpr (Or.inr (List.mem_cons_self _ _))))
  · subst ha; subst hb
    simp only [List.append_nil] at h
    rw [← h] at hy
    exact absurd rfl (hy '-' (List.mem_append.mpr (Or.inr (List.mem_cons_self _ _))))
  · subst ha; subst hb
    obtain ⟨h1, h2⟩ := dash_split xs ys ua ub h hx hy
    exact ⟨h1, by rw [h2]⟩

lemma childId_data (p : String) (i : Nat) :
    (childId p i).data = p.data ++ '-' :: (Nat.repr i).data := by
  simp [childId, String.data_append]

lemma idExt_refl (base : String) : IdExt base base :=
  ⟨[], by simp, Or.inl rfl⟩

lemma idExt_childId (base : String) (i : Nat) : IdExt base (childId base i) :=
  ⟨'-' :: (Nat.repr i).data, childId_data base i, Or.inr ⟨_, rfl⟩⟩

lemma idExt_trans_childId {base x : String} {i : Nat}
    (h : IdExt (childId base i) x) : IdExt base x := by
  obtain ⟨t, ht, hshape⟩ := h
  exact ⟨'-' :: ((Nat.repr i).data ++ t),
    by rw [ht, childId_data]; simp, Or.inr ⟨_, rfl⟩⟩

lemma idExt_childId_disj {base x : String} {i j : Nat}
    (hi : IdExt (childId base i) x) (hj : IdExt (childId base j) x) : i = j := by
  obtain ⟨t1, ht1, hs1⟩ := hi
  obtain ⟨t2, ht2, hs2⟩ := hj
  rw [childId_data] at ht1 ht2
  rw [ht1] at ht2
  simp only [List.append_assoc, List.cons_append] at ht2
  have h := List.append_cancel_left ht2
  simp only [List.cons.injEq, true_and] at h
  obtain ⟨hd, -⟩ := tail_disjoint _ _ _ _ h (noDash_repr i) (noDash_repr j) hs1 hs2
  exact repr_injective i j (String.ext hd)

lemma idExt_childId_ne_base {base x : String} {i : Nat}
    (h : IdExt (childId base i) x) : x ≠ base := by
  obtain ⟨t, ht, -⟩ := h
  intro hx
  rw [hx, childId_data] at ht
  have hlen := congrArg List.length ht
  simp [List.length_append] at hlen

lemma idExt_childId_eq_sibling {base : String} {i j : Nat} {x : String}
    (hi : IdExt (childId base i) x) (hx : x = childId base j) : i = j :=
  idExt_childId_disj hi (hx ▸ idExt_refl (childId base j))

/-- Encode a tree position (list of sibling indices) as an id relative to a
base id, applying the source id template once per step. -/
def encodeFrom (base : String) (q : List Nat) : String := q.foldl childId base

/-- Encode an absolute tree position: the root id is the constant of line 84
of the source. -/
def encodePos (q : List Nat) : String := encodeFrom "n0" q

lemma encodeFrom_nil (base : String) : encodeFrom base [] = base := rfl

lemma encodeFrom_cons (base : String) (i : Nat) (q : List Nat) :
    encodeFrom base (i :: q) = encodeFrom (childId base i) q := rfl

lemma encodeFrom_append_last (base : String) (q : List Nat) (i : Nat) :
    encodeFrom base (q ++ [i]) = childId (encodeFrom base q) i := by
  simp [encodeFrom, List.foldl_append]

lemma encodePos_append_last (p : List Nat) (i : Nat) :
    encodePos (p ++ [i]) = childId (encodePos p) i := encodeFrom_append_last "n0" p i

lemma encodeFrom_n0 (q : List Nat) : encodeFrom "n0" q = encodePos q := rfl

lemma idExt_encodeFrom (base : String) (q : List Nat) :
    IdExt base (encodeFrom base q) := by
  induction q generalizing base with
  | nil => exact idExt_refl base
  | cons i q ih =>
    rw [encodeFrom_cons]
    exact idExt_trans_childId (ih (childId base i))

lemma encodeFrom_injective (base : String) :
    ∀ p q : List Nat, encodeFrom base p = encodeFrom base q → p = q := by
  intro p
  induction p generalizing base with
  | nil =>
    intro q h
    cases q with
    | nil => rfl
    | cons j q2 =>
      rw [encodeFrom_nil, encodeFrom_cons] at h
      exact absurd h.symm (idExt_childId_ne_base (idExt_encodeFrom (childId base j) q2))
  | cons i p2 ih =>
    intro q h
    cases q with
    | nil =>
      rw [encodeFrom_nil, encodeFrom_cons] at h
      exact absurd h (idExt_childId_ne_base (idExt_encodeFrom (childId base i) p2))
    | cons j q2 =>
      rw [encodeFrom_cons, encodeFrom_cons] at h
      have hij : i = j := by
        refine @idExt_childId_disj base (encodeFrom (childId base i) p2) i j ?_ ?_
        · exact idExt_encodeFrom (childId base i) p2
        · rw [h]; exact idExt_encodeFrom (childId base j) q2
      subst hij
      rw [ih (childId base i) q2 h]

/-- Result quadruple of the pure reference recursion `specGen`: the nodes and
edges emitted for one subtree, the returned height, and the y coordinate of
the node emitted for the subtree root itself. -/
structure SpecResult where
  nodes : List LayoutNode
  edges : List LayoutEdge
  height : ℚ
  rootY : ℚ

/-- Result of the pure reference recursion over a child list: emitted nodes
and edges, plus the per-child heights and per-child root y coordinates. -/
structure SpecChildrenResult where
  nodes : List LayoutNode
  edges : List LayoutEdge
  heights : List ℚ
  rootYs : List ℚ

mutual

/-- Pure reference recursion mirroring `generateMindMapNodesAndEdgesWith`,
with no shared accumulator and no list search: the center y of an expanded
node is taken directly from the root y values returned for its first and
last child.  The simulation theorem below shows the source function computes
exactly this on every reachable call. -/
def specGen (nodeHeight levelWidth : ℚ) (S : Finset String) (data : MindMapData)
    (parentId : Option String) (nodeId : String) (level : Nat) (y : ℚ) :
    SpecResult :=
  match data with
  | .mk text children =>
    let isCollapsed : Bool := decide (nodeId ∈ S)
    let hasChildren : Bool := !children.isEmpty
    let selfEdges : List LayoutEdge := match parentId with
      | some p => [⟨"e" ++ p ++ "-" ++ nodeId, p, nodeId⟩]
      | none => []
    if hasChildren && !isCollapsed then
      let res := specChildren nodeHeight levelWidth S children nodeId (level + 1) 0 y
      let centerY := (res.rootYs.headD y + res.rootYs.getLastD y) / 2
      ⟨res.nodes ++ [⟨nodeId, (level : ℚ) * levelWidth, centerY, text, level,
          hasChildren, isCollapsed⟩],
        res.edges ++ selfEdges, res.heights.sum, centerY⟩
    else
      ⟨[⟨nodeId, (level : ℚ) * levelWidth, y, text, level, hasChildren, isCollapsed⟩],
        selfEdges, nodeHeight, y⟩
termination_by structural data

/-- Pure reference recursion over a child list, collecting the heights and
the root y values while advancing the cursor. -/
def specChildren (nodeHeight levelWidth : ℚ) (S : Finset String)
    (cs : List MindMapData) (pid : String) (level : Nat) (index : Nat) (y : ℚ) :
    SpecChildrenResult :=
  match cs with
  | [] => ⟨[], [], [], []⟩
  | c :: rest =>
    let r := specGen nodeHeight levelWidth S c (some pid) (childId pid index) level y
    let r2 := specChildren nodeHeight levelWidth S rest pid level (index + 1) (y + r.height)
    ⟨r.nodes ++ r2.nodes, r.edges ++ r2.edges, r.height :: r2.heights, r.rootY :: r2.rootYs⟩
termination_by structural cs

end

mutual

/-- Positions (lists of sibling indices, relative to the subtree root) of the
visible nodes of a subtree whose root carries id `id`, in emission order:
descendants through expanded children first, then the root position `[]`.
A position is listed precisely when no proper ancestor inside this subtree
both has children and has its id in the collapse set. -/
def visPos (S : Finset String) (d : MindMapData) (id : String) : List (List Nat) :=
  match d with
  | .mk _ children =>
    if !children.isEmpty && !(decide (id ∈ S)) then
      visPosChildren S children id 0 ++ [[]]
    else [[]]
termination_by structural d

/-- Visible positions contributed by a child list, each prefixed with the
sibling index of its child. -/
def visPosChildren (S : Finset String) (cs : List MindMapData) (id : String)
    (i : Nat) : List (List Nat) :=
  match cs with
  | [] => []
  | c :: rest =>
    (visPos S c (childId id i)).map (fun q => i :: q)
      ++ visPosChildren S rest id (i + 1)
termination_by structural cs

end

/-- The subtree of `d` reached by following a position path, if the path
exists in the tree. -/
def subtreeAt : MindMapData → List Nat → Option MindMapData
  | d, [] => some d
  | d, i :: q =>
    match d.children[i]? with
    | some c => subtreeAt c q
    | none => none

/-- Visibility of a tree position exactly as the claims word it: the
position exists in the tree, and no proper ancestor of it both has children
and has its id in the collapse set (the root, with no proper ancestor, is
always visible). -/
def IsVisible (S : Finset String) (d : MindMapData) (p : List Nat) : Prop :=
  (subtreeAt d p).isSome = true ∧
    ∀ q r t, q ++ r = p → r ≠ [] → subtreeAt d q = some t →
      t.children ≠ [] → encodePos q ∉ S

lemma find?_append_left {p : LayoutNode → Bool} {l1 l2 : List LayoutNode}
    {n : LayoutNode} (h : l1.find? p = some n) : (l1 ++ l2).find? p = some n := by
  rw [List.find?_append, h]; rfl

lemma find?_append_right {p : LayoutNode → Bool} {l1 l2 : List LayoutNode}
    (h : l1.find? p = none) : (l1 ++ l2).find? p = l2.find? p := by
  rw [List.find?_append, h]; rfl

lemma specGen_pid_irrel (nh lw : ℚ) (S : Finset String) (d : MindMapData)
    (p1 p2 : Option String) (id : String) (lvl : Nat) (y : ℚ) :
    (specGen nh lw S d p1 id lvl y).nodes = (specGen nh lw S d p2 id lvl y).nodes
    ∧ (specGen nh lw S d p1 id lvl y).height = (specGen nh lw S d p2 id lvl y).height
    ∧ (specGen nh lw S d p1 id lvl y).rootY = (specGen nh lw S d p2 id lvl y).rootY := by
  cases d with
  | mk text children =>
    simp only [specGen]
    by_cases h : (!children.isEmpty && !decide (id ∈ S)) = true
    · simp only [if_pos h]
      exact ⟨trivial, trivial, trivial⟩
    · simp only [if_neg h]
      exact ⟨trivial, trivial, trivial⟩

/-- The record that `specGen` emits for the root of its own call (the same
record in the expanded and in the leaf branch, since the rootY output equals
the emitted y in both). -/
def specNode (nh lw : ℚ) (S : Finset String) (t : MindMapData) (id : String)
    (lvl : Nat) (y : ℚ) : LayoutNode :=
  ⟨id, (lvl : ℚ) * lw, (specGen nh lw S t none id lvl y).rootY, t.text, lvl,
    !t.children.isEmpty, decide (id ∈ S)⟩

mutual

theorem specGen_ids_eq (nh lw : ℚ) (S : Finset String) (d : MindMapData)
    (pid : Option String) (id : String) (lvl : Nat) (y : ℚ) :
    (specGen nh lw S d pid id lvl y).nodes.map (fun n => n.id)
      = (visPos S d id).map (encodeFrom id) := by
  cases d with
  | mk text children =>
    simp only [specGen, visPos]
    by_cases h : (!children.isEmpty && !decide (id ∈ S)) = true
    · simp only [if_pos h, List.map_append, List.map_cons, List.map_nil]
      rw [specChildren_ids_eq]
      rfl
    · simp only [if_neg h, List.map_cons, List.map_nil]
      rfl
termination_by structural d

theorem specChildren_ids_eq (nh lw : ℚ) (S : Finset String) (cs : List MindMapData)
    (pid : String) (lvl : Nat) (idx : Nat) (y : ℚ) :
    (specChildren nh lw S cs pid lvl idx y).nodes.map (fun n => n.id)
      = (visPosChildren S cs pid idx).map (encodeFrom pid) := by
  cases cs with
  | nil => rfl
  | cons c rest =>
    rw [specChildren, visPosChildren]
    simp only [List.map_append, List.map_map]
    rw [specGen_ids_eq, specChildren_ids_eq]
    rfl
termination_by structural cs

end

lemma sum_nonneg_q {l : List ℚ} (h : ∀ x ∈ l, 0 ≤ x) : 0 ≤ l.sum := by
  induction l with
  | nil => simp
  | cons a l ih =>
    rw [List.sum_cons]
    have ha := h a (List.mem_cons_self a l)
    have hl := ih (fun x hx => h x (List.mem_cons_of_mem a hx))
    linarith

lemma le_headD {l : List ℚ} {y : ℚ} (h : ∀ x ∈ l, y ≤ x) : y ≤ l.headD y := by
  cases l with
  | nil => simp
  | cons a l => exact h a (List.mem_cons_self a l)

lemma le_getLastD {l : List ℚ} {y : ℚ} (h : ∀ x ∈ l, y ≤ x) : y ≤ l.getLastD y := by
  rcases List.mem_cons.mp (List.getLastD_mem_cons l y) with h1 | h1
  · rw [h1]
  · exact h _ h1

lemma visPosChildren_mem {S : Finset String} :
    ∀ (cs : List MindMapData) (pid : String) (i : Nat) (q : List Nat),
    q ∈ visPosChildren S cs pid i →
    ∃ j q2 c, q = j :: q2 ∧ i ≤ j ∧ j < i + cs.length ∧ cs[j - i]? = some c ∧
      q2 ∈ visPos S c (childId pid j) := by
  intro cs
  induction cs with
  | nil => intro pid i q h; simp [visPosChildren] at h
  | cons c rest ih =>
    intro pid i q h
    rw [visPosChildren] at h
    rcases List.mem_append.mp h with h1 | h1
    · obtain ⟨q2, hq2, hq⟩ := List.mem_map.mp h1
      exact ⟨i, q2, c, hq.symm, le_refl i, by simp, by simp, hq2⟩
    · obtain ⟨j, q2, c2, hq, hij, hjlt, hget, hmem⟩ := ih pid (i + 1) q h1
      refine ⟨j, q2, c2, hq, by omega, by simp; omega, ?_, hmem⟩
      have : j - i = (j - (i + 1)) + 1 := by omega
      rw [this]
      simpa using hget

mutual

theorem visPos_nodup (S : Finset String) (d : MindMapData) (id : String) :
    (visPos S d id).Nodup := by
  cases d with
  | mk text children =>
    rw [visPos]
    by_cases h : (!children.isEmpty && !decide (id ∈ S)) = true
    · simp only [if_pos h]
      rw [List.nodup_append]
      refine ⟨visPosChildren_nodup S children id 0, List.nodup_singleton _, ?_⟩
      intro q hq
      obtain ⟨j, q2, c, hq2, -⟩ := visPosChildren_mem children id 0 q hq
      simp [hq2]
    · simp only [if_neg h]
      exact List.nodup_singleton _
termination_by structural d

theorem visPosChildren_nodup (S : Finset String) (cs : List MindMapData)
    (id : String) (i : Nat) : (visPosChildren S cs id i).Nodup := by
  cases cs with
  | nil => exact List.nodup_nil
  | cons c rest =>
    rw [visPosChildren]
    rw [List.nodup_append]
    refine ⟨?_, visPosChildren_nodup S rest id (i + 1), ?_⟩
    · exact (visPos_nodup S c (childId id i)).map (fun a b hab => by
        simpa using hab)
    · intro q hq1 hq2
      obtain ⟨q2, hq2m, hq⟩ := List.mem_map.mp hq1
      obtain ⟨j, q3, c2, hq3, hij, -⟩ := visPosChildren_mem rest id (i + 1) q hq2
      rw [← hq] at hq3
      simp only [List.cons.injEq] at hq3
      omega
termination_by structural cs

end

mutual

theorem specGen_y_lb (nh lw : ℚ) (S : Finset String) (d : MindMapData)
    (pid : Option String) (id : String) (lvl : Nat) (y : ℚ) (hnh : 0 ≤ nh) :
    (∀ n ∈ (specGen nh lw S d pid id lvl y).nodes, y ≤ n.y)
    ∧ y ≤ (specGen nh lw S d pid id lvl y).rootY
    ∧ 0 ≤ (specGen nh lw S d pid id lvl y).height := by
  cases d with
  | mk text children =>
    simp only [specGen]
    by_cases h : (!children.isEmpty && !decide (id ∈ S)) = true
    · simp only [if_pos h]
      obtain ⟨hn, hr, hh⟩ := specChildren_y_lb nh lw S children id (lvl + 1) 0 y hnh
      have hhead : y ≤ ((specChildren nh lw S children id (lvl + 1) 0 y).rootYs.headD y
          + (specChildren nh lw S children id (lvl + 1) 0 y).rootYs.getLastD y) / 2 := by
        have h1 := le_headD hr
        have h2 := le_getLastD hr
        linarith
      refine ⟨?_, hhead, sum_nonneg_q hh⟩
      intro n hn2
      rcases List.mem_append.mp hn2 with h1 | h1
      · exact hn n h1
      · rcases List.mem_singleton.mp h1 with rfl
        exact hhead
    · simp only [if_neg h]
      exact ⟨fun n hn => by rcases List.mem_singleton.mp hn with rfl; exact le_refl y,
        le_refl y, hnh⟩
termination_by structural d

theorem specChildren_y_lb (nh lw : ℚ) (S : Finset String) (cs : List MindMapData)
    (pid : String) (lvl : Nat) (idx : Nat) (y : ℚ) (hnh : 0 ≤ nh) :
    (∀ n ∈ (specChildren nh lw S cs pid lvl idx y).nodes, y ≤ n.y)
    ∧ (∀ r ∈ (specChildren nh lw S cs pid lvl idx y).rootYs, y ≤ r)
    ∧ (∀ hh ∈ (specChildren nh lw S cs pid lvl idx y).heights, 0 ≤ hh) := by
  cases cs with
  | nil => exact ⟨fun n hn => by simp [specChildren] at hn,
      fun r hr => by simp [specChildren] at hr,
      fun hh h2 => by simp [specChildren] at h2⟩
  | cons c rest =>
    rw [specChildren]
    obtain ⟨hn1, hr1, hh1⟩ := specGen_y_lb nh lw S c (some pid) (childId pid idx) lvl y hnh
    obtain ⟨hn2, hr2, hh2⟩ := specChildren_y_lb nh lw S rest pid lvl (idx + 1)
      (y + (specGen nh lw S c (some pid) (childId pid idx) lvl y).height) hnh
    refine ⟨?_, ?_, ?_⟩
    · intro n hn
      rcases List.mem_append.mp hn with h1 | h1
      · exact hn1 n h1
      · have := hn2 n h1
        linarith
    · intro r hr
      rcases List.mem_cons.mp hr with rfl | h1
      · exact hr1
      · have := hr2 r h1
        linarith
    · intro hh h2
      rcases List.mem_cons.mp h2 with rfl | h1
      · exact hh1
      · exact hh2 hh h1
termination_by structural cs

end

theorem specChildren_rootYs_len (nh lw : ℚ) (S : Finset String) :
    ∀ (cs : List MindMapData) (pid : String) (lvl idx : Nat) (y : ℚ),
    (specChildren nh lw S cs pid lvl idx y).rootYs.length = cs.length := by
  intro cs
  induction cs with
  | nil => intro pid lvl idx y; rfl
  | cons c rest ih =>
    intro pid lvl idx y
    rw [specChildren]
    simp only [List.length_cons, ih]

theorem specChildren_heights_len (nh lw : ℚ) (S : Finset String) :
    ∀ (cs : List MindMapData) (pid : String) (lvl idx : Nat) (y : ℚ),
    (specChildren nh lw S cs pid lvl idx y).heights.length = cs.length := by
  intro cs
  induction cs with
  | nil => intro pid lvl idx y; rfl
  | cons c rest ih =>
    intro pid lvl idx y
    rw [specChildren]
    simp only [List.length_cons, ih]

lemma specGen_mem_idExt {nh lw : ℚ} {S : Finset String} {d : MindMapData}
    {pid : Option String} {id : String} {lvl : Nat} {y : ℚ} {n : LayoutNode}
    (hn : n ∈ (specGen nh lw S d pid id lvl y).nodes) : IdExt id n.id := by
  have h1 : n.id ∈ (specGen nh lw S d pid id lvl y).nodes.map (fun n => n.id) :=
    List.mem_map.mpr ⟨n, hn, rfl⟩
  rw [specGen_ids_eq] at h1
  obtain ⟨q, hq, hid⟩ := List.mem_map.mp h1
  rw [← hid]
  exact idExt_encodeFrom id q

lemma specChildren_mem_idExt {nh lw : ℚ} {S : Finset String} {cs : List MindMapData}
    {pid : String} {lvl idx : Nat} {y : ℚ} {n : LayoutNode}
    (hn : n ∈ (specChildren nh lw S cs pid lvl idx y).nodes) :
    ∃ j, idx ≤ j ∧ j < idx + cs.length ∧ IdExt (childId pid j) n.id := by
  have h1 : n.id ∈ (specChildren nh lw S cs pid lvl idx y).nodes.map (fun n => n.id) :=
    List.mem_map.mpr ⟨n, hn, rfl⟩
  rw [specChildren_ids_eq] at h1
  obtain ⟨q, hq, hid⟩ := List.mem_map.mp h1
  obtain ⟨j, q2, c, hq2, hij, hjlt, -, -⟩ := visPosChildren_mem cs pid idx q hq
  refine ⟨j, hij, hjlt, ?_⟩
  rw [← hid, hq2, encodeFrom_cons]
  exact idExt_encodeFrom (childId pid j) q2

theorem specChildren_get (nh lw : ℚ) (S : Finset String) :
    ∀ (cs : List MindMapData) (pid : String) (lvl idx : Nat) (y : ℚ)
      (j : Nat) (c : MindMapData), cs[j]? = some c →
    (specChildren nh lw S cs pid lvl idx y).rootYs[j]?
      = some ((specGen nh lw S c none (childId pid (idx + j)) lvl
          (y + ((specChildren nh lw S cs pid lvl idx y).heights.take j).sum)).rootY)
    ∧ (specChildren nh lw S cs pid lvl idx y).heights[j]?
      = some ((specGen nh lw S c none (childId pid (idx + j)) lvl
          (y + ((specChildren nh lw S cs pid lvl idx y).heights.take j).sum)).height) := by
  intro cs
  induction cs with
  | nil => intro pid lvl idx y j c hc; simp at hc
  | cons c0 rest ih =>
    intro pid lvl idx y j c hc
    rw [specChildren]
    cases j with
    | zero =>
      simp only [List.getElem?_cons_zero, Option.some.injEq] at hc
      subst hc
      simp only [List.take_zero, List.sum_nil, add_zero, Nat.add_zero,
        List.getElem?_cons_zero, Option.some.injEq]
      obtain ⟨-, hh, hr⟩ := specGen_pid_irrel nh lw S c0 (some pid) none (childId pid idx) lvl y
      exact ⟨by rw [hr], by rw [hh]⟩
    | succ j =>
      simp only [List.getElem?_cons_succ] at hc
      have := ih pid lvl (idx + 1)
        (y + (specGen nh lw S c0 (some pid) (childId pid idx) lvl y).height) j c hc
      simp only [List.getElem?_cons_succ, List.take_succ_cons, List.sum_cons]
      have harith : ∀ s : ℚ,
          y + ((specGen nh lw S c0 (some pid) (childId pid idx) lvl y).height + s)
          = (y + (specGen nh lw S c0 (some pid) (childId pid idx) lvl y).height) + s := by
        intro s; ring
      have hidx : idx + (j + 1) = (idx + 1) + j := by omega
      rw [harith, hidx]
      exact this

theorem specGen_find_self (nh lw : ℚ) (S : Finset String) (d : MindMapData)
    (pid : Option String) (id : String) (lvl : Nat) (y : ℚ) :
    (specGen nh lw S d pid id lvl y).nodes.find? (fun n => n.id = id)
      = some (specNode nh lw S d id lvl y) := by
  cases d with
  | mk text children =>
    rw [specNode]
    simp only [specGen]
    by_cases h : (!children.isEmpty && !decide (id ∈ S)) = true
    · simp only [if_pos h]
      rw [find?_append_right]
      · simp only [List.find?_cons, eq_self_iff_true, decide_True]
        rfl
      · rw [List.find?_eq_none]
        intro n hn
        simp only [decide_eq_true_eq]
        obtain ⟨j, -, -, hext⟩ := specChildren_mem_idExt hn
        exact idExt_childId_ne_base hext
    · simp only [if_neg h]
      simp only [List.find?_cons, eq_self_iff_true, decide_True]
      rfl

theorem specChildren_find_child (nh lw : ℚ) (S : Finset String) :
    ∀ (cs : List MindMapData) (pid : String) (lvl idx : Nat) (y : ℚ)
      (j : Nat) (c : MindMapData), cs[j]? = some c →
    (specChildren nh lw S cs pid lvl idx y).nodes.find?
        (fun n => n.id = childId pid (idx + j))
      = some (specNode nh lw S c (childId pid (idx + j)) lvl
          (y + ((specChildren nh lw S cs pid lvl idx y).heights.take j).sum)) := by
  intro cs
  induction cs with
  | nil => intro pid lvl idx y j c hc; simp at hc
  | cons c0 rest ih =>
    intro pid lvl idx y j c hc
    rw [specChildren]
    cases j with
    | zero =>
      simp only [List.getElem?_cons_zero, Option.some.injEq] at hc
      subst hc
      simp only [List.take_zero, List.sum_nil, add_zero, Nat.add_zero]
      exact find?_append_left (specGen_find_self nh lw S c0 (some pid) (childId pid idx) lvl y)
    | succ j =>
      simp only [List.getElem?_cons_succ] at hc
      rw [find?_append_right]
      · have := ih pid lvl (idx + 1)
          (y + (specGen nh lw S c0 (some pid) (childId pid idx) lvl y).height) j c hc
        simp only [List.take_succ_cons, List.sum_cons]
        have harith : ∀ s : ℚ,
            y + ((specGen nh lw S c0 (some pid) (childId pid idx) lvl y).height + s)
            = (y + (specGen nh lw S c0 (some pid) (childId pid idx) lvl y).height) + s := by
          intro s; ring
        have hidx : idx + (j + 1) = (idx + 1) + j := by omega
        rw [harith, hidx]
        exact this
      · rw [List.find?_eq_none]
        intro n hn
        simp only [decide_eq_true_eq]
        intro hid
        have hext := specGen_mem_idExt hn
        rw [hid] at hext
        have := idExt_childId_eq_sibling hext rfl
        omega

theorem specChildren_find_sub (nh lw : ℚ) (S : Finset String) :
    ∀ (cs : List MindMapData) (pid : String) (lvl idx : Nat) (y : ℚ)
      (j : Nat) (c : MindMapData) (target : String), cs[j]? = some c →
    IdExt (childId pid (idx + j)) target →
    (specChildren nh lw S cs pid lvl idx y).nodes.find? (fun n => n.id = target)
      = (specGen nh lw S c (some pid) (childId pid (idx + j)) lvl
          (y + ((specChildren nh lw S cs pid lvl idx y).heights.take j).sum)).nodes.find?
          (fun n => n.id = target) := by
  intro cs
  induction cs with
  | nil => intro pid lvl idx y j c target hc ht; simp at hc
  | cons c0 rest ih =>
    intro pid lvl idx y j c target hc ht
    rw [specChildren]
    cases j with
    | zero =>
      simp only [List.getElem?_cons_zero, Option.some.injEq] at hc
      subst hc
      simp only [List.take_zero, List.sum_nil, add_zero, Nat.add_zero] at ht ⊢
      cases hfind : (specGen nh lw S c0 (some pid) (childId pid idx) lvl y).nodes.find?
          (fun n => n.id = target) with
      | some n => exact find?_append_left hfind
      | none =>
        rw [find?_append_right hfind]
        rw [List.find?_eq_none]
        intro n hn
        simp only [decide_eq_true_eq]
        intro hid
        obtain ⟨k, hk1, -, hext⟩ := specChildren_mem_idExt hn
        rw [hid] at hext
        have := idExt_childId_disj hext ht
        omega
    | succ j =>
      simp only [List.getElem?_cons_succ] at hc
      simp only [List.take_succ_cons, List.sum_cons]
      have harith : ∀ s : ℚ,
          y + ((specGen nh lw S c0 (some pid) (childId pid idx) lvl y).height + s)
          = (y + (specGen nh lw S c0 (some pid) (childId pid idx) lvl y).height) + s := by
        intro s; ring
      have hidx : idx + (j + 1) = (idx + 1) + j := by omega
      rw [find?_append_right, harith, hidx]
      · exact ih pid lvl (idx + 1)
          (y + (specGen nh lw S c0 (some pid) (childId pid idx) lvl y).height) j c target hc
          (by rw [← hidx]; exact ht)
      · rw [List.find?_eq_none]
        intro n hn
        simp only [decide_eq_true_eq]
        intro hid
        have hext := specGen_mem_idExt hn
        rw [hid] at hext
        have := idExt_childId_disj hext ht
        omega

theorem specGen_find_walk (nh lw : ℚ) (S : Finset String) :
    ∀ (q : List Nat) (d : MindMapData) (pid : Option String) (id : String)
      (lvl : Nat) (y : ℚ), q ∈ visPos S d id →
    ∃ t y2, subtreeAt d q = some t ∧
      (specGen nh lw S d pid id lvl y).nodes.find?
          (fun n => n.id = encodeFrom id q)
        = some (specNode nh lw S t (encodeFrom id q) (lvl + q.length) y2)
      ∧ (t.children ≠ [] → encodeFrom id q ∉ S →
          ∀ (j : Nat) (c : MindMapData), t.children[j]? = some c →
          (specGen nh lw S d pid id lvl y).nodes.find?
              (fun n => n.id = encodeFrom id (q ++ [j]))
            = some (specNode nh lw S c (encodeFrom id (q ++ [j])) (lvl + q.length + 1)
                (y2 + ((specChildren nh lw S t.children (encodeFrom id q)
                    (lvl + q.length + 1) 0 y2).heights.take j).sum))) := by
  intro q
  induction q with
  | nil =>
    intro d pid id lvl y hq
    refine ⟨d, y, rfl, ?_, ?_⟩
    · exact specGen_find_self nh lw S d pid id lvl y
    · intro hchild hS j c hc
      rw [encodeFrom_nil] at hS
      cases d with
      | mk text children =>
        simp only [MindMapData.children] at hchild hc
        have hcond : (!children.isEmpty && !decide (id ∈ S)) = true := by
          simp [hchild, hS]
        simp only [specGen, if_pos hcond]
        have hfc := specChildren_find_child nh lw S children id (lvl + 1) 0 y j c hc
        simp only [Nat.zero_add] at hfc
        exact find?_append_left hfc
  | cons i q2 ih =>
    intro d pid id lvl y hq
    cases d with
    | mk text children =>
      rw [visPos] at hq
      by_cases hcond : (!children.isEmpty && !decide (id ∈ S)) = true
      · rw [if_pos hcond] at hq
        rcases List.mem_append.mp hq with hq1 | hq1
        · obtain ⟨j, q3, c, hqe, -, hjlt, hget, hmem⟩ :=
            visPosChildren_mem children id 0 (i :: q2) hq1
          simp only [List.cons.injEq] at hqe
          obtain ⟨rfl, rfl⟩ := hqe
          simp only [Nat.sub_zero] at hget
          obtain ⟨t, y2, hsub, hfind, hrel⟩ :=
            ih c (some id) (childId id i) (lvl + 1)
              (y + ((specChildren nh lw S children id (lvl + 1) 0 y).heights.take i).sum)
              hmem
          have hlen : lvl + (i :: q2).length = lvl + 1 + q2.length := by
            simp only [List.length_cons]
            omega
          refine ⟨t, y2, ?_, ?_, ?_⟩
          · rw [subtreeAt, MindMapData.children, hget]
            exact hsub
          · simp only [specGen, if_pos hcond]
            rw [hlen]
            have hsub2 := specChildren_find_sub nh lw S children id (lvl + 1) 0 y i c
              (encodeFrom (childId id i) q2) hget
              (by simpa using idExt_encodeFrom (childId id i) q2)
            simp only [Nat.zero_add] at hsub2
            refine find?_append_left ?_
            show List.find? (fun n => decide (n.id = encodeFrom (childId id i) q2))
              (specChildren nh lw S children id (lvl + 1) 0 y).nodes = _
            rw [hsub2, hfind]
            rfl
          · intro hchild hS j2 c2 hc2
            have hrel2 := hrel hchild (by
              rwa [show encodeFrom id (i :: q2) = encodeFrom (childId id i) q2 from rfl]
                at hS) j2 c2 hc2
            simp only [specGen, if_pos hcond]
            rw [hlen]
            have hsub2 := specChildren_find_sub nh lw S children id (lvl + 1) 0 y i c
              (encodeFrom (childId id i) (q2 ++ [j2])) hget
              (by simpa using idExt_encodeFrom (childId id i) (q2 ++ [j2]))
            simp only [Nat.zero_add] at hsub2
            refine find?_append_left ?_
            show List.find? (fun n => decide (n.id = encodeFrom (childId id i) (q2 ++ [j2])))
              (specChildren nh lw S children id (lvl + 1) 0 y).nodes = _
            rw [hsub2, hrel2]
            rfl
        · simp at hq1
      · rw [if_neg hcond] at hq
        simp at hq

lemma headD_of_getElem0 {l : List ℚ} {a : ℚ} (h : l[0]? = some a) (d : ℚ) :
    l.headD d = a := by
  cases l with
  | nil => simp at h
  | cons b l => simp at h; simp [h]

lemma getLastD_of_getElem {l : List ℚ} {a : ℚ} (h : l[l.length - 1]? = some a) (d : ℚ) :
    l.getLastD d = a := by
  rw [List.getLastD_eq_getLast?, ← List.getLast?_eq_getElem? l] at *
  rw [h]
  rfl

/-- Freshness of the incoming accumulator for a call that will emit ids in
the id subtree of `id`: no already-present node id lies in that subtree. -/
def Fresh (nodes : List LayoutNode) (id : String) : Prop :=
  ∀ n ∈ nodes, ¬ IdExt id n.id

/-- Freshness of the accumulator with respect to all children of `pid` from
sibling index `idx` on. -/
def FreshChildren (nodes : List LayoutNode) (pid : String) (idx : Nat) : Prop :=
  ∀ n ∈ nodes, ∀ j, idx ≤ j → ¬ IdExt (childId pid j) n.id

/-- The id the source computes on line 84 from the parent id and the sibling
index. -/
def nodeIdOf (pid : Option String) (idx : Nat) : String :=
  match pid with
  | some p => childId p idx
  | none => "n0"

lemma freshChildren_of_fresh {nodes : List LayoutNode} {id : String}
    (h : Fresh nodes id) (idx : Nat) : FreshChildren nodes id idx := by
  intro n hn j hj hext
  exact h n hn (idExt_trans_childId hext)

lemma freshChildren_weaken {nodes : List LayoutNode} {pid : String} {idx : Nat}
    (h : FreshChildren nodes pid idx) : FreshChildren nodes pid (idx + 1) := by
  intro n hn j hj
  exact h n hn j (by omega)

lemma freshChildren_append {nh lw : ℚ} {S : Finset String} {c : MindMapData}
    {nodes : List LayoutNode} {pid : String} {idx : Nat} {lvl : Nat} {y : ℚ}
    (h : FreshChildren nodes pid idx) :
    FreshChildren (nodes ++ (specGen nh lw S c (some pid) (childId pid idx) lvl y).nodes)
      pid (idx + 1) := by
  intro n hn j hj hext
  rcases List.mem_append.mp hn with h1 | h1
  · exact h n h1 j (by omega) hext
  · have h2 := specGen_mem_idExt h1
    have := idExt_childId_disj h2 hext
    omega

lemma fresh_of_freshChildren {nodes : List LayoutNode} {pid : String} {idx : Nat}
    (h : FreshChildren nodes pid idx) : Fresh nodes (childId pid idx) := by
  intro n hn
  exact h n hn idx (le_refl idx)

mutual

theorem sim_gen (nh lw : ℚ) (S : Finset String) (d : MindMapData)
    (pid : Option String) (nodes : List LayoutNode) (edges : List LayoutEdge)
    (lvl idx : Nat) (y : ℚ)
    (hf : Fresh nodes (nodeIdOf pid idx)) (hy : 0 ≤ y) (hnh : 0 ≤ nh) :
    generateMindMapNodesAndEdgesWith nh lw d S pid nodes edges lvl idx y
      = (nodes ++ (specGen nh lw S d pid (nodeIdOf pid idx) lvl y).nodes,
         edges ++ (specGen nh lw S d pid (nodeIdOf pid idx) lvl y).edges,
         (specGen nh lw S d pid (nodeIdOf pid idx) lvl y).height) := by
  cases d with
  | mk text children =>
    cases pid with
    | none =>
      simp only [nodeIdOf] at hf ⊢
      simp only [generateMindMapNodesAndEdgesWith, specGen]
      by_cases hcond : (!children.isEmpty && !decide ("n0" ∈ S)) = true
      · have hne : children ≠ [] := by
          intro h0
          subst h0
          simp at hcond
        have hcs := sim_children nh lw S children "n0" nodes edges (lvl + 1) 0 y
          (freshChildren_of_fresh hf 0) hy hnh
        simp only [if_pos hcond, hcs]
        have hnone : ∀ j : Nat, nodes.find? (fun n => n.id = childId "n0" j) = none := by
          intro j
          rw [List.find?_eq_none]
          intro n hn
          simp only [decide_eq_true_eq]
          intro hid
          exact hf n hn (by rw [hid]; exact idExt_childId "n0" j)
        obtain ⟨c0, hc0⟩ : ∃ c0, children[0]? = some c0 := by
          cases children with
          | nil => exact absurd rfl hne
          | cons a l => exact ⟨a, by simp⟩
        have hlen0 : 0 < children.length := List.length_pos.mpr hne
        have hfc0 := specChildren_find_child nh lw S children "n0" (lvl + 1) 0 y 0 c0 hc0
        simp only [Nat.add_zero, List.take_zero, List.sum_nil, add_zero] at hfc0
        have hf1 : (nodes ++ (specChildren nh lw S children "n0" (lvl + 1) 0 y).nodes).find?
            (fun n => n.id = childId "n0" 0) = some (specNode nh lw S c0 (childId "n0" 0)
              (lvl + 1) y) := by
          rw [find?_append_right (hnone 0)]
          exact hfc0
        obtain ⟨cl, hcl⟩ : ∃ cl, children[children.length - 1]? = some cl := by
          have : children.length - 1 < children.length := by omega
          exact ⟨children[children.length - 1], List.getElem?_eq_getElem this⟩
        have hfcl := specChildren_find_child nh lw S children "n0" (lvl + 1) 0 y
          (children.length - 1) cl hcl
        simp only [Nat.zero_add] at hfcl
        have hf2 : (nodes ++ (specChildren nh lw S children "n0" (lvl + 1) 0 y).nodes).find?
            (fun n => n.id = childId "n0" (children.length - 1))
            = some (specNode nh lw S cl (childId "n0" (children.length - 1)) (lvl + 1)
              (y + ((specChildren nh lw S children "n0" (lvl + 1) 0 y).heights.take
                (children.length - 1)).sum)) := by
          rw [find?_append_right (hnone (children.length - 1))]
          exact hfcl
        have hg0 := (specChildren_get nh lw S children "n0" (lvl + 1) 0 y 0 c0 hc0).1
        simp only [Nat.add_zero, List.take_zero, List.sum_nil, add_zero] at hg0
        have hgl := (specChildren_get nh lw S children "n0" (lvl + 1) 0 y
          (children.length - 1) cl hcl).1
        simp only [Nat.zero_add] at hgl
        have hv1 : (if (specNode nh lw S c0 (childId "n0" 0) (lvl + 1) y).y = 0 then y
            else (specNode nh lw S c0 (childId "n0" 0) (lvl + 1) y).y)
            = (specChildren nh lw S children "n0" (lvl + 1) 0 y).rootYs.headD y := by
          rw [headD_of_getElem0 hg0 y]
          simp only [specNode]
          have hyb := (specGen_y_lb nh lw S c0 none (childId "n0" 0) (lvl + 1) y hnh).2.1
          by_cases hz : (specGen nh lw S c0 none (childId "n0" 0) (lvl + 1) y).rootY = 0
          · rw [if_pos hz]
            linarith
          · rw [if_neg hz]
        have hv2 : (if (specNode nh lw S cl (childId "n0" (children.length - 1)) (lvl + 1)
              (y + ((specChildren nh lw S children "n0" (lvl + 1) 0 y).heights.take
                (children.length - 1)).sum)).y = 0 then y
            else (specNode nh lw S cl (childId "n0" (children.length - 1)) (lvl + 1)
              (y + ((specChildren nh lw S children "n0" (lvl + 1) 0 y).heights.take
                (children.length - 1)).sum)).y)
            = (specChildren nh lw S children "n0" (lvl + 1) 0 y).rootYs.getLastD y := by
          have hrootlen := specChildren_rootYs_len nh lw S children "n0" (lvl + 1) 0 y
          have hgl2 : (specChildren nh lw S children "n0" (lvl + 1) 0 y).rootYs[
              (specChildren nh lw S children "n0" (lvl + 1) 0 y).rootYs.length - 1]?
              = some ((specGen nh lw S cl none (childId "n0" (children.length - 1)) (lvl + 1)
                (y + ((specChildren nh lw S children "n0" (lvl + 1) 0 y).heights.take
                  (children.length - 1)).sum)).rootY) := by
            rw [hrootlen]
            exact hgl
          rw [getLastD_of_getElem hgl2 y]
          simp only [specNode]
          have hq : 0 ≤ ((specChildren nh lw S children "n0" (lvl + 1) 0 y).heights.take
              (children.length - 1)).sum := by
            apply sum_nonneg_q
            intro x hx
            exact (specChildren_y_lb nh lw S children "n0" (lvl + 1) 0 y hnh).2.2 x
              (List.mem_of_mem_take hx)
          have hyb := (specGen_y_lb nh lw S cl none (childId "n0" (children.length - 1))
            (lvl + 1) (y + ((specChildren nh lw S children "n0" (lvl + 1) 0 y).heights.take
              (children.length - 1)).sum) hnh).2.1
          by_cases hz : (specGen nh lw S cl none (childId "n0" (children.length - 1)) (lvl + 1)
              (y + ((specChildren nh lw S children "n0" (lvl + 1) 0 y).heights.take
                (children.length - 1)).sum)).rootY = 0
          · rw [if_pos hz]
            linarith
          · rw [if_neg hz]
        simp only [hf1, hf2]
        rw [hv1, hv2]
        simp [List.append_assoc]
      · simp only [if_neg hcond]
        simp [List.append_assoc]
    | some p =>
      simp only [nodeIdOf] at hf ⊢
      simp only [generateMindMapNodesAndEdgesWith, specGen]
      by_cases hcond : (!children.isEmpty && !decide (childId p idx ∈ S)) = true
      · have hne : children ≠ [] := by
          intro h0
          subst h0
          simp at hcond
        have hcs := sim_children nh lw S children (childId p idx) nodes edges (lvl + 1) 0 y
          (freshChildren_of_fresh hf 0) hy hnh
        simp only [if_pos hcond, hcs]
        have hnone : ∀ j : Nat, nodes.find? (fun n => n.id = childId (childId p idx) j) = none := by
          intro j
          rw [List.find?_eq_none]
          intro n hn
          simp only [decide_eq_true_eq]
          intro hid
          exact hf n hn (by rw [hid]; exact idExt_childId (childId p idx) j)
        obtain ⟨c0, hc0⟩ : ∃ c0, children[0]? = some c0 := by
          cases children with
          | nil => exact absurd rfl hne
          | cons a l => exact ⟨a, by simp⟩
        have hlen0 : 0 < children.length := List.length_pos.mpr hne
        have hfc0 := specChildren_find_child nh lw S children (childId p idx) (lvl + 1) 0 y 0 c0 hc0
        simp only [Nat.add_zero, List.take_zero, List.sum_nil, add_zero] at hfc0
        have hf1 : (nodes ++ (specChildren nh lw S children (childId p idx) (lvl + 1) 0 y).nodes).find?
            (fun n => n.id = childId (childId p idx) 0) = some (specNode nh lw S c0 (childId (childId p idx) 0)
              (lvl + 1) y) := by
          rw [find?_append_right (hnone 0)]
          exact hfc0
        obtain ⟨cl, hcl⟩ : ∃ cl, children[children.length - 1]? = some cl := by
          have : children.length - 1 < children.length := by omega
          exact ⟨children[children.length - 1], List.getElem?_eq_getElem this⟩
        have hfcl := specChildren_find_child nh lw S children (childId p idx) (lvl + 1) 0 y
          (children.length - 1) cl hcl
        simp only [Nat.zero_add] at hfcl
        have hf2 : (nodes ++ (specChildren nh lw S children (childId p idx) (lvl + 1) 0 y).nodes).find?
            (fun n => n.id = childId (childId p idx) (children.length - 1))
            = some (specNode nh lw S cl (childId (childId p idx) (children.length - 1)) (lvl + 1)
              (y + ((specChildren nh lw S children (childId p idx) (lvl + 1) 0 y).heights.take
                (children.length - 1)).sum)) := by
          rw [find?_append_right (hnone (children.length - 1))]
          exact hfcl
        have hg0 := (specChildren_get nh lw S children (childId p idx) (lvl + 1) 0 y 0 c0 hc0).1
        simp only [Nat.add_zero, List.take_zero, List.sum_nil, add_zero] at hg0
        have hgl := (specChildren_get nh lw S children (childId p idx) (lvl + 1) 0 y
          (children.length - 1) cl hcl).1
        simp only [Nat.zero_add] at hgl
        have hv1 : (if (specNode nh lw S c0 (childId (childId p idx) 0) (lvl + 1) y).y = 0 then y
            else (specNode nh lw S c0 (childId (childId p idx) 0) (lvl + 1) y).y)
            = (specChildren nh lw S children (childId p idx) (lvl + 1) 0 y).rootYs.headD y := by
          rw [headD_of_getElem0 hg0 y]
          simp only [specNode]
          have hyb := (specGen_y_lb nh lw S c0 none (childId (childId p idx) 0) (lvl + 1) y hnh).2.1
          by_cases hz : (specGen nh lw S c0 none (childId (childId p idx) 0) (lvl + 1) y).rootY = 0
          · rw [if_pos hz]
            linarith
          · rw [if_neg hz]
        have hv2 : (if (specNode nh lw S cl (childId (childId p idx) (children.length - 1)) (lvl + 1)
              (y + ((specChildren nh lw S children (childId p idx) (lvl + 1) 0 y).heights.take
                (children.length - 1)).sum)).y = 0 then y
            else (specNode nh lw S cl (childId (childId p idx) (children.length - 1)) (lvl + 1)
              (y + ((specChildren nh lw S children (childId p idx) (lvl + 1) 0 y).heights.take
                (children.length - 1)).sum)).y)
            = (specChildren nh lw S children (childId p idx) (lvl + 1) 0 y).rootYs.getLastD y := by
          have hrootlen := specChildren_rootYs_len nh lw S children (childId p idx) (lvl + 1) 0 y
          have hgl2 : (specChildren nh lw S children (childId p idx) (lvl + 1) 0 y).rootYs[
              (specChildren nh lw S children (childId p idx) (lvl + 1) 0 y).rootYs.length - 1]?
              = some ((specGen nh lw S cl none (childId (childId p idx) (children.length - 1)) (lvl + 1)
                (y + ((specChildren nh lw S children (childId p idx) (lvl + 1) 0 y).heights.take
                  (children.length - 1)).sum)).rootY) := by
            rw [hrootlen]
            exact hgl
          rw [getLastD_of_getElem hgl2 y]
          simp only [specNode]
          have hq : 0 ≤ ((specChildren nh lw S children (childId p idx) (lvl + 1) 0 y).heights.take
              (children.length - 1)).sum := by
            apply sum_nonneg_q
            intro x hx
            exact (specChildren_y_lb nh lw S children (childId p idx) (lvl + 1) 0 y hnh).2.2 x
              (List.mem_of_mem_take hx)
          have hyb := (specGen_y_lb nh lw S cl none (childId (childId p idx) (children.length - 1))
            (lvl + 1) (y + ((specChildren nh lw S children (childId p idx) (lvl + 1) 0 y).heights.take
              (children.length - 1)).sum) hnh).2.1
          by_cases hz : (specGen nh lw S cl none (childId (childId p idx) (children.length - 1)) (lvl + 1)
              (y + ((specChildren nh lw S children (childId p idx) (lvl + 1) 0 y).heights.take
                (children.length - 1)).sum)).rootY = 0
          · rw [if_pos hz]
            linarith
          · rw [if_neg hz]
        simp only [hf1, hf2]
        rw [hv1, hv2]
        simp [List.append_assoc]
      · simp only [if_neg hcond]
termination_by structural d

theorem sim_children (nh lw : ℚ) (S : Finset String) (cs : List MindMapData)
    (pid : String) (nodes : List LayoutNode) (edges : List LayoutEdge)
    (lvl idx : Nat) (y : ℚ)
    (hf : FreshChildren nodes pid idx) (hy : 0 ≤ y) (hnh : 0 ≤ nh) :
    genChildrenWith nh lw cs S pid nodes edges lvl idx y
      = (nodes ++ (specChildren nh lw S cs pid lvl idx y).nodes,
         edges ++ (specChildren nh lw S cs pid lvl idx y).edges,
         (specChildren nh lw S cs pid lvl idx y).heights.sum) := by
  cases cs with
  | nil => simp [genChildrenWith, specChildren]
  | cons c rest =>
    simp only [genChildrenWith, specChildren]
    have h1 := sim_gen nh lw S c (some pid) nodes edges lvl idx y
      (fresh_of_freshChildren hf) hy hnh
    simp only [nodeIdOf] at h1
    rw [h1]
    have hh0 : 0 ≤ (specGen nh lw S c (some pid) (childId pid idx) lvl y).height :=
      (specGen_y_lb nh lw S c (some pid) (childId pid idx) lvl y hnh).2.2
    have h2 := sim_children nh lw S rest pid
      (nodes ++ (specGen nh lw S c (some pid) (childId pid idx) lvl y).nodes)
      (edges ++ (specGen nh lw S c (some pid) (childId pid idx) lvl y).edges)
      lvl (idx + 1)
      (y + (specGen nh lw S c (some pid) (childId pid idx) lvl y).height)
      (freshChildren_append hf) (by linarith) hnh
    rw [h2]
    simp [List.append_assoc]
termination_by structural cs

end

theorem layout_eq_spec (d : MindMapData) (S : Finset String) :
    mindMapLayout d S
      = ((specGen 120 300 S d none "n0" 0 0).nodes,
         (specGen 120 300 S d none "n0" 0 0).edges,
         (specGen 120 300 S d none "n0" 0 0).height) := by
  have h := sim_gen 120 300 S d none [] [] 0 0 0
    (by intro n hn; simp at hn) (le_refl 0) (by norm_num)
  simp only [nodeIdOf] at h
  simp only [mindMapLayout, generateMindMapNodesAndEdges, nodeHeight, levelWidth]
  rw [h]
  simp

mutual

theorem specGen_edges_len (nh lw : ℚ) (S : Finset String) (d : MindMapData)
    (pid : Option String) (id : String) (lvl : Nat) (y : ℚ) :
    (specGen nh lw S d pid id lvl y).edges.length
        + (match pid with | none => 1 | some _ => 0)
      = (specGen nh lw S d pid id lvl y).nodes.length := by
  cases d with
  | mk text children =>
    simp only [specGen]
    by_cases h : (!children.isEmpty && !decide (id ∈ S)) = true
    · simp only [if_pos h]
      have hc := specChildren_edges_len nh lw S children id (lvl + 1) 0 y
      cases pid with
      | none => simp [List.length_append, hc]
      | some p => simp [List.length_append, hc]
    · simp only [if_neg h]
      cases pid with
      | none => simp
      | some p => simp
termination_by structural d

theorem specChildren_edges_len (nh lw : ℚ) (S : Finset String) (cs : List MindMapData)
    (pid : String) (lvl : Nat) (idx : Nat) (y : ℚ) :
    (specChildren nh lw S cs pid lvl idx y).edges.length
      = (specChildren nh lw S cs pid lvl idx y).nodes.length := by
  cases cs with
  | nil => rfl
  | cons c rest =>
    simp only [specChildren]
    have h1 := specGen_edges_len nh lw S c (some pid) (childId pid idx) lvl y
    have h2 := specChildren_edges_len nh lw S rest pid lvl (idx + 1)
      (y + (specGen nh lw S c (some pid) (childId pid idx) lvl y).height)
    simp only [List.length_append]
    simp at h1
    omega
termination_by structural cs

end

theorem specGen_nodes_len (nh lw : ℚ) (S : Finset String) (d : MindMapData)
    (pid : Option String) (id : String) (lvl : Nat) (y : ℚ) :
    (specGen nh lw S d pid id lvl y).nodes.length = (visPos S d id).length := by
  have h := congrArg List.length (specGen_ids_eq nh lw S d pid id lvl y)
  simpa using h

lemma nil_mem_visPos (S : Finset String) (d : MindMapData) (id : String) :
    [] ∈ visPos S d id := by
  cases d with
  | mk text children =>
    rw [visPos]
    by_cases h : (!children.isEmpty && !decide (id ∈ S)) = true
    · simp [if_pos h]
    · simp [if_neg h]

lemma visPosChildren_mem_of (S : Finset String) :
    ∀ (cs : List MindMapData) (pid : String) (idx j : Nat) (q2 : List Nat)
      (c : MindMapData),
    idx ≤ j → cs[j - idx]? = some c → q2 ∈ visPos S c (childId pid j) →
    (j :: q2) ∈ visPosChildren S cs pid idx := by
  intro cs
  induction cs with
  | nil => intro pid idx j q2 c hij hget hmem; simp at hget
  | cons c0 rest ih =>
    intro pid idx j q2 c hij hget hmem
    rw [visPosChildren]
    rcases Nat.lt_or_ge idx j with hlt | hge
    · have hd : j - idx = (j - (idx + 1)) + 1 := by omega
      rw [hd] at hget
      simp only [List.getElem?_cons_succ] at hget
      exact List.mem_append.mpr (Or.inr (ih pid (idx + 1) j q2 c (by omega) hget hmem))
    · have hj : j = idx := by omega
      subst hj
      simp only [Nat.sub_self, List.getElem?_cons_zero, Option.some.injEq] at hget
      subst hget
      exact List.mem_append.mpr (Or.inl (List.mem_map.mpr ⟨q2, hmem, rfl⟩))

theorem visPos_iff (S : Finset String) :
    ∀ (p : List Nat) (d : MindMapData) (id : String),
    p ∈ visPos S d id ↔
      ((subtreeAt d p).isSome = true ∧
        ∀ q r t, q ++ r = p → r ≠ [] → subtreeAt d q = some t →
          t.children ≠ [] → encodeFrom id q ∉ S) := by
  intro p
  induction p with
  | nil =>
    intro d id
    constructor
    · intro h
      refine ⟨by simp [subtreeAt], ?_⟩
      intro q r t hqr hr
      rcases List.append_eq_nil.mp hqr with ⟨-, rfl⟩
      exact absurd rfl hr
    · intro h
      exact nil_mem_visPos S d id
  | cons i p2 ih =>
    intro d id
    cases d with
    | mk text children =>
      rw [visPos]
      by_cases hcond : (!children.isEmpty && !decide (id ∈ S)) = true
      · have hchild : children ≠ [] := by
          intro h0
          subst h0
          simp at hcond
        have hS : id ∉ S := by
          intro h0
          simp [h0] at hcond
        rw [if_pos hcond]
        constructor
        · intro h
          have h1 : i :: p2 ∈ visPosChildren S children id 0 := by
            rcases List.mem_append.mp h with h1 | h1
            · exact h1
            · simp at h1
          obtain ⟨j, q2, c, hqe, -, -, hget, hmem⟩ :=
            visPosChildren_mem children id 0 (i :: p2) h1
          simp only [List.cons.injEq] at hqe
          obtain ⟨rfl, rfl⟩ := hqe
          simp only [Nat.sub_zero] at hget
          obtain ⟨hsome, hanc⟩ := (ih c (childId id i)).mp hmem
          constructor
          · simpa [subtreeAt, MindMapData.children, hget] using hsome
          · intro q r t hqr hr hsub hchil
            cases q with
            | nil =>
              simp only [subtreeAt, Option.some.injEq] at hsub
              rw [encodeFrom_nil]
              exact fun hin => hS hin
            | cons i2 q3 =>
              simp only [List.cons_append, List.cons.injEq] at hqr
              obtain ⟨rfl, hqr2⟩ := hqr
              simp only [subtreeAt, MindMapData.children, hget] at hsub
              exact hanc q3 r t hqr2 hr hsub hchil
        · intro ⟨hsome, hanc⟩
          obtain ⟨c, hget⟩ : ∃ c, children[i]? = some c := by
            simp only [subtreeAt, MindMapData.children] at hsome
            cases hg : children[i]? with
            | none => rw [hg] at hsome; simp at hsome
            | some c => exact ⟨c, rfl⟩
          have hmem : p2 ∈ visPos S c (childId id i) := by
            apply (ih c (childId id i)).mpr
            constructor
            · simpa [subtreeAt, MindMapData.children, hget] using hsome
            · intro q r t hqr hr hsub hchil
              have := hanc (i :: q) r t (by rw [← hqr]; rfl) hr
                (by simpa [subtreeAt, MindMapData.children, hget] using hsub) hchil
              simpa [encodeFrom_cons] using this
          refine List.mem_append.mpr (Or.inl ?_)
          exact visPosChildren_mem_of S children id 0 i p2 c (by omega)
            (by simpa using hget) hmem
      · rw [if_neg hcond]
        have hcase : children = [] ∨ id ∈ S := by
          by_contra hno
          push_neg at hno
          exact hcond (by simp [hno.1, hno.2])
        constructor
        · intro h
          simp at h
        · intro ⟨hsome, hanc⟩
          exfalso
          rcases hcase with hc | hc
          · subst hc
            simp [subtreeAt, MindMapData.children] at hsome
          · have hchild : children ≠ [] := by
              intro h0
              subst h0
              simp [subtreeAt, MindMapData.children] at hsome
            exact hanc [] (i :: p2) (MindMapData.mk text children) rfl (by simp)
              rfl hchild (by rw [encodeFrom_nil]; exact hc)

mutual

/-- Variant of the source function in which the falsy fallback of lines 116
to 121 is replaced by an option-only fallback: a found row is used verbatim
even when its y is 0, and `yOffset` is used only when no row is found.  This
function is a verification artifact: proving the layout equal to it expresses
that the `|| yOffset` coercion never changes a computed midpoint on the real
inputs (claim C10). -/
def generateMindMapNodesAndEdgesNFWith (nodeHeight levelWidth : ℚ)
    (data : MindMapData) (collapsedNodes : Finset String)
    (parentId : Option String) (nodes : List LayoutNode) (edges : List LayoutEdge)
    (level : Nat) (index : Nat) (yOffset : ℚ) :
    List LayoutNode × List LayoutEdge × ℚ :=
  match data with
  | .mk text children =>
    let nodeId := match parentId with
      | some p => childId p index
      | none => "n0"
    let isCollapsed : Bool := decide (nodeId ∈ collapsedNodes)
    let hasChildren : Bool := !children.isEmpty
    if hasChildren && !isCollapsed then
      let res := genChildrenNFWith nodeHeight levelWidth children collapsedNodes nodeId
        nodes edges (level + 1) 0 yOffset
      let totalHeight := res.2.2
      let firstChildY := match res.1.find? (fun n => n.id = childId nodeId 0) with
        | some n => n.y
        | none => yOffset
      let lastChildIndex := children.length - 1
      let lastChildY := match res.1.find? (fun n => n.id = childId nodeId lastChildIndex) with
        | some n => n.y
        | none => yOffset
      let centerY := (firstChildY + lastChildY) / 2
      let nodes2 := res.1 ++ [⟨nodeId, (level : ℚ) * levelWidth, centerY, text, level,
        hasChildren, isCollapsed⟩]
      let edges2 := match parentId with
        | some p => res.2.1 ++ [⟨"e" ++ p ++ "-" ++ nodeId, p, nodeId⟩]
        | none => res.2.1
      (nodes2, edges2, totalHeight)
    else
      let nodes2 := nodes ++ [⟨nodeId, (level : ℚ) * levelWidth, yOffset, text, level,
        hasChildren, isCollapsed⟩]
      let edges2 := match parentId with
        | some p => edges ++ [⟨"e" ++ p ++ "-" ++ nodeId, p, nodeId⟩]
        | none => edges
      (nodes2, edges2, nodeHeight)
termination_by structural data

/-- Children loop of the fallback-free variant. -/
def genChildrenNFWith (nodeHeight levelWidth : ℚ) (cs : List MindMapData)
    (collapsedNodes : Finset String) (pid : String)
    (nodes : List LayoutNode) (edges : List LayoutEdge)
    (level : Nat) (index : Nat) (y : ℚ) :
    List LayoutNode × List LayoutEdge × ℚ :=
  match cs with
  | [] => (nodes, edges, 0)
  | c :: rest =>
    let r := generateMindMapNodesAndEdgesNFWith nodeHeight levelWidth c collapsedNodes
      (some pid) nodes edges level index y
    let r2 := genChildrenNFWith nodeHeight levelWidth rest collapsedNodes pid r.1 r.2.1
      level (index + 1) (y + r.2.2)
    (r2.1, r2.2.1, r.2.2 + r2.2.2)
termination_by structural cs

end

/-- Top-level layout of the fallback-free variant. -/
def mindMapLayoutNF (data : MindMapData) (collapsedNodes : Finset String) :
    List LayoutNode × List LayoutEdge × ℚ :=
  generateMindMapNodesAndEdgesNFWith nodeHeight levelWidth data collapsedNodes
    none [] [] 0 0 0

mutual

theorem sim_genNF (nh lw : ℚ) (S : Finset String) (d : MindMapData)
    (pid : Option String) (nodes : List LayoutNode) (edges : List LayoutEdge)
    (lvl idx : Nat) (y : ℚ)
    (hf : Fresh nodes (nodeIdOf pid idx)) :
    generateMindMapNodesAndEdgesNFWith nh lw d S pid nodes edges lvl idx y
      = (nodes ++ (specGen nh lw S d pid (nodeIdOf pid idx) lvl y).nodes,
         edges ++ (specGen nh lw S d pid (nodeIdOf pid idx) lvl y).edges,
         (specGen nh lw S d pid (nodeIdOf pid idx) lvl y).height) := by
  cases d with
  | mk text children =>
    cases pid with
    | none =>
      simp only [nodeIdOf] at hf ⊢
      simp only [generateMindMapNodesAndEdgesNFWith, specGen]
      by_cases hcond : (!children.isEmpty && !decide ("n0" ∈ S)) = true
      · have hne : children ≠ [] := by
          intro h0
          subst h0
          simp at hcond
        have hcs := sim_childrenNF nh lw S children "n0" nodes edges (lvl + 1) 0 y
          (freshChildren_of_fresh hf 0)
        simp only [if_pos hcond, hcs]
        have hnone : ∀ j : Nat, nodes.find? (fun n => n.id = childId "n0" j) = none := by
          intro j
          rw [List.find?_eq_none]
          intro n hn
          simp only [decide_eq_true_eq]
          intro hid
          exact hf n hn (by rw [hid]; exact idExt_childId "n0" j)
        obtain ⟨c0, hc0⟩ : ∃ c0, children[0]? = some c0 := by
          cases children with
          | nil => exact absurd rfl hne
          | cons a l => exact ⟨a, by simp⟩
        have hlen0 : 0 < children.length := List.length_pos.mpr hne
        have hfc0 := specChildren_find_child nh lw S children "n0" (lvl + 1) 0 y 0 c0 hc0
        simp only [Nat.add_zero, List.take_zero, List.sum_nil, add_zero] at hfc0
        have hf1 : (nodes ++ (specChildren nh lw S children "n0" (lvl + 1) 0 y).nodes).find?
            (fun n => n.id = childId "n0" 0) = some (specNode nh lw S c0 (childId "n0" 0)
              (lvl + 1) y) := by
          rw [find?_append_right (hnone 0)]
          exact hfc0
        obtain ⟨cl, hcl⟩ : ∃ cl, children[children.length - 1]? = some cl := by
          have : children.length - 1 < children.length := by omega
          exact ⟨children[children.length - 1], List.getElem?_eq_getElem this⟩
        have hfcl := specChildren_find_child nh lw S children "n0" (lvl + 1) 0 y
          (children.length - 1) cl hcl
        simp only [Nat.zero_add] at hfcl
        have hf2 : (nodes ++ (specChildren nh lw S children "n0" (lvl + 1) 0 y).nodes).find?
            (fun n => n.id = childId "n0" (children.length - 1))
            = some (specNode nh lw S cl (childId "n0" (children.length - 1)) (lvl + 1)
              (y + ((specChildren nh lw S children "n0" (lvl + 1) 0 y).heights.take
                (children.length - 1)).sum)) := by
          rw [find?_append_right (hnone (children.length - 1))]
          exact hfcl
        have hg0 := (specChildren_get nh lw S children "n0" (lvl + 1) 0 y 0 c0 hc0).1
        simp only [Nat.add_zero, List.take_zero, List.sum_nil, add_zero] at hg0
        have hgl := (specChildren_get nh lw S children "n0" (lvl + 1) 0 y
          (children.length - 1) cl hcl).1
        simp only [Nat.zero_add] at hgl
        have hv1 : (specNode nh lw S c0 (childId "n0" 0) (lvl + 1) y).y
            = (specChildren nh lw S children "n0" (lvl + 1) 0 y).rootYs.headD y := by
          rw [headD_of_getElem0 hg0 y]
          simp only [specNode]
        have hv2 : (specNode nh lw S cl (childId "n0" (children.length - 1)) (lvl + 1)
              (y + ((specChildren nh lw S children "n0" (lvl + 1) 0 y).heights.take
                (children.length - 1)).sum)).y
            = (specChildren nh lw S children "n0" (lvl + 1) 0 y).rootYs.getLastD y := by
          have hrootlen := specChildren_rootYs_len nh lw S children "n0" (lvl + 1) 0 y
          have hgl2 : (specChildren nh lw S children "n0" (lvl + 1) 0 y).rootYs[
              (specChildren nh lw S children "n0" (lvl + 1) 0 y).rootYs.length - 1]?
              = some ((specGen nh lw S cl none (childId "n0" (children.length - 1)) (lvl + 1)
                (y + ((specChildren nh lw S children "n0" (lvl + 1) 0 y).heights.take
                  (children.length - 1)).sum)).rootY) := by
            rw [hrootlen]
            exact hgl
          rw [getLastD_of_getElem hgl2 y]
          simp only [specNode]
        simp only [hf1, hf2]
        rw [hv1, hv2]
        simp [List.append_assoc]
      · simp only [if_neg hcond]
        simp [List.append_assoc]
    | some p =>
      simp only [nodeIdOf] at hf ⊢
      simp only [generateMindMapNodesAndEdgesNFWith, specGen]
      by_cases hcond : (!children.isEmpty && !decide (childId p idx ∈ S)) = true
      · have hne : children ≠ [] := by
          intro h0
          subst h0
          simp at hcond
        have hcs := sim_childrenNF nh lw S children (childId p idx) nodes edges (lvl + 1) 0 y
          (freshChildren_of_fresh hf 0)
        simp only [if_pos hcond, hcs]
        have hnone : ∀ j : Nat, nodes.find? (fun n => n.id = childId (childId p idx) j) = none := by
          intro j
          rw [List.find?_eq_none]
          intro n hn
          simp only [decide_eq_true_eq]
          intro hid
          exact hf n hn (by rw [hid]; exact idExt_childId (childId p idx) j)
        obtain ⟨c0, hc0⟩ : ∃ c0, children[0]? = some c0 := by
          cases children with
          | nil => exact absurd rfl hne
          | cons a l => exact ⟨a, by simp⟩
        have hlen0 : 0 < children.length := List.length_pos.mpr hne
        have hfc0 := specChildren_find_child nh lw S children (childId p idx) (lvl + 1) 0 y 0 c0 hc0
        simp only [Nat.add_zero, List.take_zero, List.sum_nil, add_zero] at hfc0
        have hf1 : (nodes ++ (specChildren nh lw S children (childId p idx) (lvl + 1) 0 y).nodes).find?
            (fun n => n.id = childId (childId p idx) 0) = some (specNode nh lw S c0 (childId (childId p idx) 0)
              (lvl + 1) y) := by
          rw [find?_append_right (hnone 0)]
          exact hfc0
        obtain ⟨cl, hcl⟩ : ∃ cl, children[children.length - 1]? = some cl := by
          have : children.length - 1 < children.length := by omega
          exact ⟨children[children.length - 1], List.getElem?_eq_getElem this⟩
        have hfcl := specChildren_find_child nh lw S children (childId p idx) (lvl + 1) 0 y
          (children.length - 1) cl hcl
        simp only [Nat.zero_add] at hfcl
        have hf2 : (nodes ++ (specChildren nh lw S children (childId p idx) (lvl + 1) 0 y).nodes).find?
            (fun n => n.id = childId (childId p idx) (children.length - 1))
            = some (specNode nh lw S cl (childId (childId p idx) (children.length - 1)) (lvl + 1)
              (y + ((specChildren nh lw S children (childId p idx) (lvl + 1) 0 y).heights.take
                (children.length - 1)).sum)) := by
          rw [find?_append_right (hnone (children.length - 1))]
          exact hfcl
        have hg0 := (specChildren_get nh lw S children (childId p idx) (lvl + 1) 0 y 0 c0 hc0).1
        simp only [Nat.add_zero, List.take_zero, List.sum_nil, add_zero] at hg0
        have hgl := (specChildren_get nh lw S children (childId p idx) (lvl + 1) 0 y
          (children.length - 1) cl hcl).1
        simp only [Nat.zero_add] at hgl
        have hv1 : (specNode nh lw S c0 (childId (childId p idx) 0) (lvl + 1) y).y
            = (specChildren nh lw S children (childId p idx) (lvl + 1) 0 y).rootYs.headD y := by
          rw [headD_of_getElem0 hg0 y]
          simp only [specNode]
        have hv2 : (specNode nh lw S cl (childId (childId p idx) (children.length - 1)) (lvl + 1)
              (y + ((specChildren nh lw S children (childId p idx) (lvl + 1) 0 y).heights.take
                (children.length - 1)).sum)).y
            = (specChildren nh lw S children (childId p idx) (lvl + 1) 0 y).rootYs.getLastD y := by
          have hrootlen := specChildren_rootYs_len nh lw S children (childId p idx) (lvl + 1) 0 y
          have hgl2 : (specChildren nh lw S children (childId p idx) (lvl + 1) 0 y).rootYs[
              (specChildren nh lw S children (childId p idx) (lvl + 1) 0 y).rootYs.length - 1]?
              = some ((specGen nh lw S cl none (childId (childId p idx) (children.length - 1)) (lvl + 1)
                (y + ((specChildren nh lw S children (childId p idx) (lvl + 1) 0 y).heights.take
                  (children.length - 1)).sum)).rootY) := by
            rw [hrootlen]
            exact hgl
          rw [getLastD_of_getElem hgl2 y]
          simp only [specNode]
        simp only [hf1, hf2]
        rw [hv1, hv2]
        simp [List.append_assoc]
      · simp only [if_neg hcond]
termination_by structural d

theorem sim_childrenNF (nh lw : ℚ) (S : Finset String) (cs : List MindMapData)
    (pid : String) (nodes : List LayoutNode) (edges : List LayoutEdge)
    (lvl idx : Nat) (y : ℚ)
    (hf : FreshChildren nodes pid idx) :
    genChildrenNFWith nh lw cs S pid nodes edges lvl idx y
      = (nodes ++ (specChildren nh lw S cs pid lvl idx y).nodes,
         edges ++ (specChildren nh lw S cs pid lvl idx y).edges,
         (specChildren nh lw S cs pid lvl idx y).heights.sum) := by
  cases cs with
  | nil => simp [genChildrenNFWith, specChildren]
  | cons c rest =>
    simp only [genChildrenNFWith, specChildren]
    have h1 := sim_genNF nh lw S c (some pid) nodes edges lvl idx y
      (fresh_of_freshChildren hf)
    simp only [nodeIdOf] at h1
    rw [h1]
    have h2 := sim_childrenNF nh lw S rest pid
      (nodes ++ (specGen nh lw S c (some pid) (childId pid idx) lvl y).nodes)
      (edges ++ (specGen nh lw S c (some pid) (childId pid idx) lvl y).edges)
      lvl (idx + 1)
      (y + (specGen nh lw S c (some pid) (childId pid idx) lvl y).height)
      (freshChildren_append hf)
    rw [h2]
    simp [List.append_assoc]
termination_by structural cs

end

theorem layoutNF_eq_spec (d : MindMapData) (S : Finset String) :
    mindMapLayoutNF d S
      = ((specGen 120 300 S d none "n0" 0 0).nodes,
         (specGen 120 300 S d none "n0" 0 0).edges,
         (specGen 120 300 S d none "n0" 0 0).height) := by
  have h := sim_genNF 120 300 S d none [] [] 0 0 0
    (by intro n hn; simp at hn)
  simp only [nodeIdOf] at h
  simp only [mindMapLayoutNF, nodeHeight, levelWidth]
  rw [h]
  simp

lemma onToggle_self (S : Finset String) (id : String) :
    id ∈ onToggle S id ↔ id ∉ S := by
  rw [onToggle]
  by_cases h : id ∈ S
  · simp [if_pos h, h]
  · simp [if_neg h, h]

lemma onToggle_other (S : Finset String) (id x : String) (h : x ≠ id) :
    x ∈ onToggle S id ↔ x ∈ S := by
  rw [onToggle]
  by_cases h2 : id ∈ S
  · rw [if_pos h2]
    simp [Finset.mem_erase, h]
  · rw [if_neg h2]
    simp [Finset.mem_insert, h]

lemma onToggle_onToggle (S : Finset String) (id : String) :
    onToggle (onToggle S id) id = S := by
  rw [onToggle, onToggle]
  by_cases h : id ∈ S
  · rw [if_pos h, if_neg (Finset.not_mem_erase id S)]
    exact Finset.insert_erase h
  · rw [if_neg h, if_pos (Finset.mem_insert_self id S)]
    exact Finset.erase_insert h

/-- Reset the collapse flag of the node whose id is `x`, leaving every other
field and every other node unchanged.  Mapping both layouts through this
function expresses that toggling a leaf id changes at most that flag. -/
def clearAt (x : String) (n : LayoutNode) : LayoutNode :=
  if n.id = x then ⟨n.id, n.x, n.y, n.label, n.level, n.hasChildren, false⟩ else n

mutual

theorem specGen_toggle (nh lw : ℚ) (S S2 : Finset String) (d : MindMapData)
    (pid : Option String) (id : String) (lvl : Nat) (y : ℚ) (L : String)
    (hL : ∀ q t, subtreeAt d q = some t → encodeFrom id q = L → t.children = [])
    (hagree : ∀ x, x ≠ L → (x ∈ S2 ↔ x ∈ S)) :
    (specGen nh lw S2 d pid id lvl y).nodes.map (clearAt L)
      = (specGen nh lw S d pid id lvl y).nodes.map (clearAt L)
    ∧ (specGen nh lw S2 d pid id lvl y).edges = (specGen nh lw S d pid id lvl y).edges
    ∧ (specGen nh lw S2 d pid id lvl y).height = (specGen nh lw S d pid id lvl y).height
    ∧ (specGen nh lw S2 d pid id lvl y).rootY = (specGen nh lw S d pid id lvl y).rootY := by
  cases d with
  | mk text children =>
    by_cases hid : id = L
    · have hleaf : children = [] := by
        have := hL [] (MindMapData.mk text children) rfl (by rw [encodeFrom_nil]; exact hid)
        simpa [MindMapData.children] using this
      subst hleaf
      simp only [specGen, List.isEmpty_nil, Bool.not_true, Bool.false_and,
        if_neg (by simp : ¬((!List.isEmpty [] && !decide (id ∈ S2)) = true)),
        if_neg (by simp : ¬((!List.isEmpty [] && !decide (id ∈ S)) = true))]
      refine ⟨?_, by simp, by simp, by simp⟩
      simp [clearAt, hid]
    · have hmem : decide (id ∈ S2) = decide (id ∈ S) :=
        decide_eq_decide.mpr (hagree id hid)
      simp only [specGen, hmem]
      by_cases hcond : (!children.isEmpty && !decide (id ∈ S)) = true
      · simp only [if_pos hcond]
        obtain ⟨hn, he, hh, hr⟩ := specChildren_toggle nh lw S S2 children id (lvl + 1) 0 y L
          (by
            intro j c q t hget hsub henc
            refine hL (j :: q) t ?_ (by simpa [encodeFrom_cons] using henc)
            simpa [subtreeAt, MindMapData.children, hget] using hsub)
          hagree
        refine ⟨?_, by rw [he], by rw [hh], by rw [hr]⟩
        simp only [List.map_append, hn, hr, List.map_cons, List.map_nil]
      · simp [if_neg hcond]
termination_by structural d

theorem specChildren_toggle (nh lw : ℚ) (S S2 : Finset String) (cs : List MindMapData)
    (pid : String) (lvl : Nat) (idx : Nat) (y : ℚ) (L : String)
    (hL : ∀ j c q t, cs[j]? = some c → subtreeAt c q = some t →
      encodeFrom (childId pid (idx + j)) q = L → t.children = [])
    (hagree : ∀ x, x ≠ L → (x ∈ S2 ↔ x ∈ S)) :
    (specChildren nh lw S2 cs pid lvl idx y).nodes.map (clearAt L)
      = (specChildren nh lw S cs pid lvl idx y).nodes.map (clearAt L)
    ∧ (specChildren nh lw S2 cs pid lvl idx y).edges
      = (specChildren nh lw S cs pid lvl idx y).edges
    ∧ (specChildren nh lw S2 cs pid lvl idx y).heights
      = (specChildren nh lw S cs pid lvl idx y).heights
    ∧ (specChildren nh lw S2 cs pid lvl idx y).rootYs
      = (specChildren nh lw S cs pid lvl idx y).rootYs := by
  cases cs with
  | nil => exact ⟨rfl, rfl, rfl, rfl⟩
  | cons c rest =>
    simp only [specChildren]
    obtain ⟨hn1, he1, hh1, hr1⟩ := specGen_toggle nh lw S S2 c (some pid)
      (childId pid idx) lvl y L
      (by
        intro q t hsub henc
        have := hL 0 c q t (by simp) hsub
        simp only [Nat.add_zero] at this
        exact this henc)
      hagree
    obtain ⟨hn2, he2, hh2, hr2⟩ := specChildren_toggle nh lw S S2 rest pid lvl (idx + 1)
      (y + (specGen nh lw S c (some pid) (childId pid idx) lvl y).height) L
      (by
        intro j c2 q t hget hsub henc
        refine hL (j + 1) c2 q t (by simpa using hget) hsub ?_
        have : idx + (j + 1) = idx + 1 + j := by omega
        rw [this]
        exact henc)
      hagree
    rw [hh1]
    exact ⟨by simp only [List.map_append, hn1, hn2], by rw [he1, he2],
      by rw [hh2], by rw [hr1, hr2]⟩
termination_by structural cs

end

lemma specGen_leaf_shape (nh lw : ℚ) (S : Finset String) (t : MindMapData)
    (pid : Option String) (id : String) (lvl : Nat) (y : ℚ)
    (h : t.children = [] ∨ id ∈ S) :
    (specGen nh lw S t pid id lvl y).rootY = y
    ∧ (specGen nh lw S t pid id lvl y).height = nh := by
  cases t with
  | mk text children =>
    have hcond : ¬((!children.isEmpty && !decide (id ∈ S)) = true) := by
      rcases h with h | h
      · simp only [MindMapData.children] at h
        subst h
        simp
      · simp [h]
    simp only [specGen, if_neg hcond]
    constructor <;> trivial

lemma specChildren_take_sum (nh lw : ℚ) (S : Finset String) (cs : List MindMapData)
    (pid : String) (lvl : Nat) (y : ℚ)
    (hleaf : ∀ (j : Nat) (c : MindMapData), cs[j]? = some c →
      c.children = [] ∨ childId pid j ∈ S) :
    ∀ k, k ≤ cs.length →
      ((specChildren nh lw S cs pid lvl 0 y).heights.take k).sum = (k : ℚ) * nh := by
  intro k
  induction k with
  | zero => intro h; simp
  | succ k ih =>
    intro hk
    have hklt : k < cs.length := by omega
    obtain ⟨c, hc⟩ : ∃ c, cs[k]? = some c :=
      ⟨cs[k], List.getElem?_eq_getElem hklt⟩
    have hg := (specChildren_get nh lw S cs pid lvl 0 y k c hc).2
    simp only [Nat.zero_add] at hg
    have hlen := specChildren_heights_len nh lw S cs pid lvl 0 y
    rw [List.take_succ, List.sum_append, hg]
    have hh := (specGen_leaf_shape nh lw S c none (childId pid k) lvl
      (y + ((specChildren nh lw S cs pid lvl 0 y).heights.take k).sum)
      (hleaf k c hc)).2
    rw [hh, ih (by omega)]
    simp only [Option.toList_some, List.sum_cons, List.sum_nil]
    push_cast
    ring

/-- The concrete tree of the spec scenario: root A with children B (a leaf)
and C (with leaf children D and E). -/
def exTree : MindMapData :=
  .mk "A" [.mk "B" [], .mk "C" [.mk "D" [], .mk "E" []]]

/-- A single-node tree: the root is a leaf. -/
def leafTree : MindMapData := .mk "A" []

lemma repr_lit_0 : Nat.repr 0 = "0" := rfl

lemma repr_lit_1 : Nat.repr 1 = "1" := rfl

/-- C1: for every input tree and collapse set, the layout emits exactly one
node per visible node (visibility as the claim defines it, via proper
ancestors that have children and sit in the collapse set) and exactly one
edge fewer; a root with no children yields one node and no edges. -/
theorem claim_C1 (d : MindMapData) (S : Finset String) :
    (∀ p, p ∈ visPos S d "n0" ↔ IsVisible S d p)
    ∧ (visPos S d "n0").Nodup
    ∧ (mindMapLayout d S).1.length = (visPos S d "n0").length
    ∧ (mindMapLayout d S).2.1.length = (visPos S d "n0").length - 1
    ∧ (∀ t, (mindMapLayout (.mk t []) S).1.length = 1
        ∧ (mindMapLayout (.mk t []) S).2.1 = []) := by
  have hnodes : ∀ (d2 : MindMapData),
      (mindMapLayout d2 S).1.length = (visPos S d2 "n0").length := by
    intro d2
    rw [layout_eq_spec]
    exact specGen_nodes_len 120 300 S d2 none "n0" 0 0
  have hedges : ∀ (d2 : MindMapData),
      (mindMapLayout d2 S).2.1.length = (visPos S d2 "n0").length - 1 := by
    intro d2
    rw [layout_eq_spec]
    dsimp only
    have h1 := specGen_edges_len 120 300 S d2 none "n0" 0 0
    have h2 := specGen_nodes_len 120 300 S d2 none "n0" 0 0
    simp only at h1
    omega
  refine ⟨fun p => visPos_iff S p d "n0", visPos_nodup S d "n0", hnodes d, hedges d, ?_⟩
  intro t
  have hvis : visPos S (MindMapData.mk t []) "n0" = [[]] := by
    rw [visPos]
    simp
  constructor
  · rw [hnodes (MindMapData.mk t []), hvis]
    rfl
  · have := hedges (MindMapData.mk t [])
    rw [hvis] at this
    simp only [List.length_singleton, Nat.sub_self] at this
    exact List.eq_nil_of_length_eq_zero this

/-- C2: every visible node that has children and is not collapsed (so all its
direct children are visible) is emitted with y equal to the midpoint of the y
coordinates of its first and last child; nodes are located in the output by
their ids. -/
theorem claim_C2 (d : MindMapData) (S : Finset String) (p : List Nat)
    (t : MindMapData) (hsub : subtreeAt d p = some t) (hvis : IsVisible S d p)
    (hch : t.children ≠ []) (hS : encodePos p ∉ S) :
    ∃ n c0 cl,
      (mindMapLayout d S).1.find? (fun n => n.id = encodePos p) = some n
      ∧ (mindMapLayout d S).1.find? (fun n => n.id = encodePos (p ++ [0])) = some c0
      ∧ (mindMapLayout d S).1.find?
          (fun n => n.id = encodePos (p ++ [t.children.length - 1])) = some cl
      ∧ n.y = (c0.y + cl.y) / 2
      ∧ n.hasChildren = true ∧ n.isCollapsed = false := by
  have hp : p ∈ visPos S d "n0" := (visPos_iff S p d "n0").mpr hvis
  obtain ⟨t2, y2, hsub2, hfind, hrel⟩ :=
    specGen_find_walk 120 300 S p d none "n0" 0 0 hp
  simp only [Nat.zero_add] at hfind hrel
  rw [hsub] at hsub2
  obtain rfl : t = t2 := by
    rcases hsub2 with ⟨⟩
    rfl
  cases t with
  | mk txt cs =>
    simp only [MindMapData.children] at hch
    have hlen0 : 0 < cs.length := List.length_pos.mpr hch
    obtain ⟨c0, hc0⟩ : ∃ c0, cs[0]? = some c0 := by
      cases cs with
      | nil => exact absurd rfl hch
      | cons a l => exact ⟨a, by simp⟩
    obtain ⟨cl, hcl⟩ : ∃ cl, cs[cs.length - 1]? = some cl := by
      have : cs.length - 1 < cs.length := by omega
      exact ⟨cs[cs.length - 1], List.getElem?_eq_getElem this⟩
    have hrel0 := hrel hch hS 0 c0 (by simpa [MindMapData.children] using hc0)
    have hrell := hrel hch hS (cs.length - 1) cl
      (by simpa [MindMapData.children] using hcl)
    simp only [MindMapData.children, List.take_zero, List.sum_nil, add_zero] at hrel0 hrell
    refine ⟨specNode 120 300 S (MindMapData.mk txt cs) (encodePos p) (p.length) y2,
      specNode 120 300 S c0 (encodePos (p ++ [0])) (p.length + 1) y2,
      specNode 120 300 S cl (encodePos (p ++ [cs.length - 1])) (p.length + 1)
        (y2 + ((specChildren 120 300 S cs (encodePos p) (p.length + 1) 0
          y2).heights.take (cs.length - 1)).sum), ?_, ?_, ?_, ?_, ?_, ?_⟩
    · rw [layout_eq_spec]
      exact hfind
    · rw [layout_eq_spec]
      exact hrel0
    · rw [layout_eq_spec]
      exact hrell
    · simp only [specNode]
      have hcond : (!cs.isEmpty && !decide (encodePos p ∈ S)) = true := by
        simp [hch, hS]
      rw [show (specGen 120 300 S (MindMapData.mk txt cs) none (encodePos p)
          (p.length) y2).rootY
          = ((specChildren 120 300 S cs (encodePos p) (p.length + 1) 0
              y2).rootYs.headD y2
            + (specChildren 120 300 S cs (encodePos p) (p.length + 1) 0
              y2).rootYs.getLastD y2) / 2 by
        simp only [specGen, if_pos hcond]]
      have hg0 := (specChildren_get 120 300 S cs (encodePos p) (p.length + 1) 0
        y2 0 c0 hc0).1
      simp only [Nat.add_zero, Nat.zero_add, List.take_zero, List.sum_nil, add_zero] at hg0
      have hgl := (specChildren_get 120 300 S cs (encodePos p) (p.length + 1) 0
        y2 (cs.length - 1) cl hcl).1
      simp only [Nat.zero_add] at hgl
      rw [headD_of_getElem0 hg0 y2]
      have hrootlen := specChildren_rootYs_len 120 300 S cs (encodePos p)
        (p.length + 1) 0 y2
      have hgl2 : (specChildren 120 300 S cs (encodePos p) (p.length + 1) 0
          y2).rootYs[(specChildren 120 300 S cs (encodePos p) (p.length + 1) 0
          y2).rootYs.length - 1]?
          = some ((specGen 120 300 S cl none (childId (encodePos p) (cs.length - 1))
            (p.length + 1)
            (y2 + ((specChildren 120 300 S cs (encodePos p) (p.length + 1) 0
              y2).heights.take (cs.length - 1)).sum)).rootY) := by
        rw [hrootlen]
        exact hgl
      rw [getLastD_of_getElem hgl2 y2]
      rw [show encodePos (p ++ [0]) = childId (encodePos p) 0 from
        encodeFrom_append_last "n0" p 0]
      rw [show encodePos (p ++ [cs.length - 1]) = childId (encodePos p) (cs.length - 1)
        from encodeFrom_append_last "n0" p (cs.length - 1)]
    · simp [specNode, MindMapData.children, hch]
    · simp [specNode, hS]

/-- C3: the concrete scenario with nothing collapsed: ids, x and y
coordinates of all five nodes are exactly as the claim lists them (the full
output of the layout, edges and total height included). -/
theorem claim_C3 :
    mindMapLayout exTree ∅ =
    ([⟨"n0-0", 300, 0, "B", 1, false, false⟩,
      ⟨"n0-1-0", 600, 120, "D", 2, false, false⟩,
      ⟨"n0-1-1", 600, 240, "E", 2, false, false⟩,
      ⟨"n0-1", 300, 180, "C", 1, true, false⟩,
      ⟨"n0", 0, 90, "A", 0, true, false⟩],
     [⟨"en0-n0-0", "n0", "n0-0"⟩,
      ⟨"en0-1-n0-1-0", "n0-1", "n0-1-0"⟩,
      ⟨"en0-1-n0-1-1", "n0-1", "n0-1-1"⟩,
      ⟨"en0-n0-1", "n0", "n0-1"⟩],
     360) := by
  simp [mindMapLayout, generateMindMapNodesAndEdges, nodeHeight, levelWidth,
    generateMindMapNodesAndEdgesWith, genChildrenWith, exTree, childId, List.find?,
    repr_lit_0, repr_lit_1]
  norm_num

/-- C4: collapsing C (id n0-1) removes D and E and their edges, emits C as a
collapsed leaf-shaped node of height 120 at y = 120, and recomputes the root
to y = 60; the final conjunct evaluates the recursive call for the C subtree
exactly as it occurs inside the top-level layout and shows its returned
height is 120. -/
theorem claim_C4 :
    mindMapLayout exTree {"n0-1"} =
    ([⟨"n0-0", 300, 0, "B", 1, false, false⟩,
      ⟨"n0-1", 300, 120, "C", 1, true, true⟩,
      ⟨"n0", 0, 60, "A", 0, true, false⟩],
     [⟨"en0-n0-0", "n0", "n0-0"⟩,
      ⟨"en0-n0-1", "n0", "n0-1"⟩],
     240)
    ∧ (∀ n ∈ (mindMapLayout exTree {"n0-1"}).1, n.id ≠ "n0-1-0" ∧ n.id ≠ "n0-1-1")
    ∧ (∀ e ∈ (mindMapLayout exTree {"n0-1"}).2.1,
        e.target ≠ "n0-1-0" ∧ e.target ≠ "n0-1-1")
    ∧ (generateMindMapNodesAndEdgesWith 120 300 (.mk "C" [.mk "D" [], .mk "E" []])
        {"n0-1"} (some "n0") [⟨"n0-0", 300, 0, "B", 1, false, false⟩]
        [⟨"en0-n0-0", "n0", "n0-0"⟩] 1 1 120).2.2 = 120 := by
  have hmain : mindMapLayout exTree {"n0-1"} =
      ([⟨"n0-0", 300, 0, "B", 1, false, false⟩,
        ⟨"n0-1", 300, 120, "C", 1, true, true⟩,
        ⟨"n0", 0, 60, "A", 0, true, false⟩],
       [⟨"en0-n0-0", "n0", "n0-0"⟩,
        ⟨"en0-n0-1", "n0", "n0-1"⟩],
       240) := by
    simp [mindMapLayout, generateMindMapNodesAndEdges, nodeHeight, levelWidth,
      generateMindMapNodesAndEdgesWith, genChildrenWith, exTree, childId, List.find?,
      repr_lit_0, repr_lit_1]
    norm_num
  refine ⟨hmain, ?_, ?_, ?_⟩
  · rw [hmain]
    decide
  · rw [hmain]
    decide
  · simp [generateMindMapNodesAndEdgesWith, genChildrenWith, childId,
      repr_lit_0, repr_lit_1]

/-- C8 counterexample: run with both spacing constants negative, the layout
body still produces a complete node and edge output (one node, no edges, and
it even returns the unchecked negative height) instead of rejecting the
configuration: no validation exists in the code. -/
theorem claim_C8_counterexample :
    (generateMindMapNodesAndEdgesWith (-1) (-1) leafTree ∅ none [] [] 0 0 0).1.length = 1
    ∧ (generateMindMapNodesAndEdgesWith (-1) (-1) leafTree ∅ none [] [] 0 0 0).2.1 = []
    ∧ (generateMindMapNodesAndEdgesWith (-1) (-1) leafTree ∅ none [] [] 0 0 0).2.2
        = -1 := by
  refine ⟨?_, ?_, ?_⟩ <;>
    simp [generateMindMapNodesAndEdgesWith, leafTree]

/-- C9 counterexample: the root of a single-node tree is a leaf; adding its
id to the empty collapse set changes the layout output (the emitted node
records differ in the isCollapsed flag), so the two layouts are not
identical as the claim states. -/
theorem claim_C9_counterexample :
    leafTree.children = []
    ∧ mindMapLayout leafTree (insert "n0" ∅) ≠ mindMapLayout leafTree ∅ := by
  have e1 : mindMapLayout leafTree (insert "n0" ∅) =
      ([⟨"n0", 0, 0, "A", 0, false, true⟩], [], 120) := by
    simp [mindMapLayout, generateMindMapNodesAndEdges, nodeHeight, levelWidth,
      generateMindMapNodesAndEdgesWith, leafTree]
  have e2 : mindMapLayout leafTree ∅ =
      ([⟨"n0", 0, 0, "A", 0, false, false⟩], [], 120) := by
    simp [mindMapLayout, generateMindMapNodesAndEdges, nodeHeight, levelWidth,
      generateMindMapNodesAndEdgesWith, leafTree]
  refine ⟨rfl, ?_⟩
  rw [e1, e2]
  decide

/-- C5: the toggle flips exactly the toggled id, toggling twice restores the
set, and the layout computed from the double-toggled set is identical to the
layout from the original set. -/
theorem claim_C5 (S : Finset String) (id : String) (d : MindMapData) :
    onToggle (onToggle S id) id = S
    ∧ (id ∈ onToggle S id ↔ id ∉ S)
    ∧ (∀ x, x ≠ id → (x ∈ onToggle S id ↔ x ∈ S))
    ∧ mindMapLayout d (onToggle (onToggle S id) id) = mindMapLayout d S := by
  refine ⟨onToggle_onToggle S id, onToggle_self S id,
    fun x hx => onToggle_other S id x hx, ?_⟩
  rw [onToggle_onToggle]

/-- C6: the emitted ids are exactly the encodings of the visible positions
(in emission order), for every collapse set, so ids are positional, do not
depend on labels or on the collapse set, the root id is the constant n0, the
child id template appends the separator and the ordinal, the encoding is
injective, and the emitted ids are pairwise distinct. -/
theorem claim_C6 (d : MindMapData) (S : Finset String) :
    (mindMapLayout d S).1.map (fun n => n.id) = (visPos S d "n0").map encodePos
    ∧ ((mindMapLayout d S).1.map (fun n => n.id)).Nodup
    ∧ encodePos [] = "n0"
    ∧ (∀ p i, encodePos (p ++ [i]) = encodePos p ++ "-" ++ Nat.repr i)
    ∧ (∀ p q, encodePos p = encodePos q → p = q) := by
  have h1 : (mindMapLayout d S).1.map (fun n => n.id)
      = (visPos S d "n0").map encodePos := by
    rw [layout_eq_spec]
    exact specGen_ids_eq 120 300 S d none "n0" 0 0
  refine ⟨h1, ?_, rfl, ?_, ?_⟩
  · rw [h1]
    exact List.Nodup.map (fun a b hab => encodeFrom_injective "n0" a b hab)
      (visPos_nodup S d "n0")
  · intro p i
    rw [encodePos_append_last p i]
    rfl
  · exact encodeFrom_injective "n0"

/-- C7: under an expanded parent all of whose children are leaf-shaped (leaf
or collapsed), the emitted child rows sit at exactly nodeHeight = 120 apart
per index step, in sibling order, with disjoint vertical slots. -/
theorem claim_C7 (d : MindMapData) (S : Finset String) (p : List Nat)
    (t : MindMapData) (hsub : subtreeAt d p = some t) (hvis : IsVisible S d p)
    (hch : t.children ≠ []) (hS : encodePos p ∉ S)
    (hleaf : ∀ (j : Nat) (c : MindMapData), t.children[j]? = some c →
      c.children = [] ∨ encodePos (p ++ [j]) ∈ S) :
    ∀ i j, i < j → j < t.children.length →
    ∃ ci cj,
      (mindMapLayout d S).1.find? (fun n => n.id = encodePos (p ++ [i])) = some ci
      ∧ (mindMapLayout d S).1.find? (fun n => n.id = encodePos (p ++ [j])) = some cj
      ∧ cj.y = ci.y + ((j : ℚ) - (i : ℚ)) * 120
      ∧ ci.y + 120 ≤ cj.y := by
  intro i j hij hjlt
  have hp : p ∈ visPos S d "n0" := (visPos_iff S p d "n0").mpr hvis
  obtain ⟨t2, y2, hsub2, hfind, hrel⟩ :=
    specGen_find_walk 120 300 S p d none "n0" 0 0 hp
  simp only [Nat.zero_add, encodeFrom_n0] at hfind hrel
  rw [hsub] at hsub2
  obtain rfl : t = t2 := by
    rcases hsub2 with ⟨⟩
    rfl
  have hleaf2 : ∀ (k : Nat) (c : MindMapData), t.children[k]? = some c →
      c.children = [] ∨ childId (encodePos p) k ∈ S := by
    intro k c hc
    rcases hleaf k c hc with h | h
    · exact Or.inl h
    · right
      rwa [encodePos_append_last p k] at h
  have hsum := specChildren_take_sum 120 300 S t.children (encodePos p)
    (p.length + 1) y2 hleaf2
  obtain ⟨ci0, hci0⟩ : ∃ c, t.children[i]? = some c := by
    have : i < t.children.length := by omega
    exact ⟨t.children[i], List.getElem?_eq_getElem this⟩
  obtain ⟨cj0, hcj0⟩ : ∃ c, t.children[j]? = some c :=
    ⟨t.children[j], List.getElem?_eq_getElem hjlt⟩
  have hreli := hrel hch hS i ci0 hci0
  have hrelj := hrel hch hS j cj0 hcj0
  refine ⟨_, _, by rw [layout_eq_spec]; exact hreli, by rw [layout_eq_spec]; exact hrelj,
    ?_, ?_⟩
  all_goals {
    have hyi : (specNode 120 300 S ci0 (encodePos (p ++ [i])) (p.length + 1)
        (y2 + ((specChildren 120 300 S t.children (encodePos p) (p.length + 1) 0
          y2).heights.take i).sum)).y = y2 + (i : ℚ) * 120 := by
      simp only [specNode]
      rw [(specGen_leaf_shape 120 300 S ci0 none (encodePos (p ++ [i])) (p.length + 1)
        _ (hleaf i ci0 hci0)).1]
      rw [hsum i (by omega)]
    have hyj : (specNode 120 300 S cj0 (encodePos (p ++ [j])) (p.length + 1)
        (y2 + ((specChildren 120 300 S t.children (encodePos p) (p.length + 1) 0
          y2).heights.take j).sum)).y = y2 + (j : ℚ) * 120 := by
      simp only [specNode]
      rw [(specGen_leaf_shape 120 300 S cj0 none (encodePos (p ++ [j])) (p.length + 1)
        _ (hleaf j cj0 hcj0)).1]
      rw [hsum j (by omega)]
    rw [hyi, hyj]
    have hcast : (i : ℚ) + 1 ≤ (j : ℚ) := by
      exact_mod_cast hij
    linarith
  }

mutual

theorem gen_nodes_len_raw (nh lw : ℚ) (S : Finset String) (d : MindMapData)
    (pid : Option String) (nodes : List LayoutNode) (edges : List LayoutEdge)
    (lvl idx : Nat) (y : ℚ) :
    (generateMindMapNodesAndEdgesWith nh lw d S pid nodes edges lvl idx y).1.length
      = nodes.length + (visPos S d (nodeIdOf pid idx)).length := by
  cases d with
  | mk text children =>
    cases pid with
    | none =>
      simp only [nodeIdOf, generateMindMapNodesAndEdgesWith, visPos]
      by_cases hcond : (!children.isEmpty && !decide ("n0" ∈ S)) = true
      · simp only [if_pos hcond]
        have h := genChildren_nodes_len_raw nh lw S children "n0" nodes edges (lvl + 1) 0 y
        simp [h]
        omega
      · simp only [if_neg hcond]
        simp
    | some p =>
      simp only [nodeIdOf, generateMindMapNodesAndEdgesWith, visPos]
      by_cases hcond : (!children.isEmpty && !decide (childId p idx ∈ S)) = true
      · simp only [if_pos hcond]
        have h := genChildren_nodes_len_raw nh lw S children (childId p idx) nodes edges
          (lvl + 1) 0 y
        simp [h]
        omega
      · simp only [if_neg hcond]
        simp
termination_by structural d

theorem genChildren_nodes_len_raw (nh lw : ℚ) (S : Finset String)
    (cs : List MindMapData) (pid : String) (nodes : List LayoutNode)
    (edges : List LayoutEdge) (lvl idx : Nat) (y : ℚ) :
    (genChildrenWith nh lw cs S pid nodes edges lvl idx y).1.length
      = nodes.length + (visPosChildren S cs pid idx).length := by
  cases cs with
  | nil => simp [genChildrenWith, visPosChildren]
  | cons c rest =>
    simp only [genChildrenWith, visPosChildren]
    have h1 := gen_nodes_len_raw nh lw S c (some pid) nodes edges lvl idx y
    simp only [nodeIdOf] at h1
    have h2 := genChildren_nodes_len_raw nh lw S rest pid
      (generateMindMapNodesAndEdgesWith nh lw c S (some pid) nodes edges lvl idx y).1
      (generateMindMapNodesAndEdgesWith nh lw c S (some pid) nodes edges lvl idx y).2.1
      lvl (idx + 1)
      (y + (generateMindMapNodesAndEdgesWith nh lw c S (some pid) nodes edges lvl idx y).2.2)
    rw [h2, h1]
    simp
    omega
termination_by structural cs

end

/-- C8 amended: the two spacing constants are the fixed positive literals 120
and 300 bound on lines 85 and 86 of the source, and no rejection exists: the
layout body produces its full node output (one node per visible node) for
every choice of the two constants, non-positive values included. -/
theorem claim_C8_amended :
    nodeHeight = 120 ∧ levelWidth = 300 ∧ 0 < nodeHeight ∧ 0 < levelWidth
    ∧ (∀ (nh lw : ℚ) (d : MindMapData) (S : Finset String),
        (generateMindMapNodesAndEdgesWith nh lw d S none [] [] 0 0 0).1.length
          = (visPos S d "n0").length) := by
  refine ⟨rfl, rfl, by norm_num [nodeHeight], by norm_num [levelWidth], ?_⟩
  intro nh lw d S
  have h := gen_nodes_len_raw nh lw S d none [] [] 0 0 0
  simpa [nodeIdOf] using h

/-- C9 amended: toggling the id of a leaf of the tree changes the layout
output only in the isCollapsed flag of that leaf (when visible): after
resetting that one flag both layouts have identical node lists, and their
edge lists and heights are identical outright; the toggle is nevertheless a
real state transition, flipping the membership of that id. -/
theorem claim_C9_amended (d : MindMapData) (S : Finset String) (p : List Nat)
    (t : MindMapData) (hsub : subtreeAt d p = some t) (hleaf : t.children = []) :
    ((mindMapLayout d (onToggle S (encodePos p))).1.map (clearAt (encodePos p))
        = (mindMapLayout d S).1.map (clearAt (encodePos p)))
    ∧ (mindMapLayout d (onToggle S (encodePos p))).2.1 = (mindMapLayout d S).2.1
    ∧ (mindMapLayout d (onToggle S (encodePos p))).2.2 = (mindMapLayout d S).2.2
    ∧ ((encodePos p ∈ onToggle S (encodePos p)) ↔ encodePos p ∉ S) := by
  have hL : ∀ q t2, subtreeAt d q = some t2 → encodeFrom "n0" q = encodePos p →
      t2.children = [] := by
    intro q t2 hq henc
    have hq2 : q = p := encodeFrom_injective "n0" q p henc
    subst hq2
    rw [hsub] at hq
    rcases hq with ⟨⟩
    exact hleaf
  have hagree : ∀ x, x ≠ encodePos p →
      (x ∈ onToggle S (encodePos p) ↔ x ∈ S) :=
    fun x hx => onToggle_other S _ x hx
  obtain ⟨hn, he, hh, -⟩ := specGen_toggle 120 300 S (onToggle S (encodePos p)) d none
    "n0" 0 0 (encodePos p) hL hagree
  rw [layout_eq_spec, layout_eq_spec]
  exact ⟨hn, he, hh, onToggle_self S (encodePos p)⟩

/-- C10: on every reachable recursive call (fresh accumulator, nonnegative
cursor) the source function appends new nodes whose y all lie at or above the
inherited yOffset; at the public interface every emitted node has y at least
0; and the layout is identical to the variant without the falsy fallback, so
the fallback never changes a computed midpoint. -/
theorem claim_C10 (d : MindMapData) (S : Finset String) (pid : Option String)
    (nodes : List LayoutNode) (edges : List LayoutEdge) (lvl idx : Nat) (y : ℚ)
    (hf : Fresh nodes (nodeIdOf pid idx)) (hy : 0 ≤ y) :
    (∃ NN NE H, generateMindMapNodesAndEdges d S pid nodes edges lvl idx y
        = (nodes ++ NN, edges ++ NE, H) ∧ ∀ n ∈ NN, y ≤ n.y)
    ∧ (∀ n ∈ (mindMapLayout d S).1, 0 ≤ n.y)
    ∧ mindMapLayout d S = mindMapLayoutNF d S := by
  refine ⟨?_, ?_, ?_⟩
  · refine ⟨(specGen 120 300 S d pid (nodeIdOf pid idx) lvl y).nodes,
      (specGen 120 300 S d pid (nodeIdOf pid idx) lvl y).edges,
      (specGen 120 300 S d pid (nodeIdOf pid idx) lvl y).height, ?_, ?_⟩
    · exact sim_gen 120 300 S d pid nodes edges lvl idx y hf hy (by norm_num)
    · exact (specGen_y_lb 120 300 S d pid (nodeIdOf pid idx) lvl y (by norm_num)).1
  · intro n hn
    rw [layout_eq_spec] at hn
    exact (specGen_y_lb 120 300 S d none "n0" 0 0 (by norm_num)).1 n (by simpa using hn)
  · rw [layout_eq_spec, layoutNF_eq_spec]

/-- Witness for C2: the concrete scenario tree at position [1] (node C with
two leaf children), empty collapse set. -/
theorem claim_C2_witness :
    (subtreeAt exTree [1] = some (.mk "C" [.mk "D" [], .mk "E" []])
      ∧ IsVisible ∅ exTree [1]
      ∧ (MindMapData.mk "C" [.mk "D" [], .mk "E" []]).children ≠ []
      ∧ encodePos [1] ∉ (∅ : Finset String))
    ∧ (∃ n c0 cl,
        (mindMapLayout exTree ∅).1.find? (fun n => n.id = encodePos [1]) = some n
        ∧ (mindMapLayout exTree ∅).1.find?
            (fun n => n.id = encodePos ([1] ++ [0])) = some c0
        ∧ (mindMapLayout exTree ∅).1.find?
            (fun n => n.id = encodePos ([1] ++
              [(MindMapData.mk "C" [.mk "D" [], .mk "E" []]).children.length - 1]))
            = some cl
        ∧ n.y = (c0.y + cl.y) / 2
        ∧ n.hasChildren = true ∧ n.isCollapsed = false) := by
  have h1 : subtreeAt exTree [1] = some (.mk "C" [.mk "D" [], .mk "E" []]) := rfl
  have h2 : IsVisible ∅ exTree [1] := by
    constructor
    · rfl
    · intro q r t hqr hr hsub hch
      simp
  have h3 : (MindMapData.mk "C" [.mk "D" [], .mk "E" []]).children ≠ [] := by
    simp [MindMapData.children]
  have h4 : encodePos [1] ∉ (∅ : Finset String) := by simp
  exact ⟨⟨h1, h2, h3, h4⟩, claim_C2 exTree ∅ [1] _ h1 h2 h3 h4⟩

/-- Witness for C7: the concrete scenario tree at position [1]: both children
of C are leaves, so rows D and E sit exactly 120 apart. -/
theorem claim_C7_witness :
    (subtreeAt exTree [1] = some (.mk "C" [.mk "D" [], .mk "E" []])
      ∧ IsVisible ∅ exTree [1]
      ∧ (MindMapData.mk "C" [.mk "D" [], .mk "E" []]).children ≠ []
      ∧ encodePos [1] ∉ (∅ : Finset String)
      ∧ (∀ (j : Nat) (c : MindMapData),
          (MindMapData.mk "C" [.mk "D" [], .mk "E" []]).children[j]? = some c →
          c.children = [] ∨ encodePos ([1] ++ [j]) ∈ (∅ : Finset String)))
    ∧ (∀ i j, i < j → j < (MindMapData.mk "C" [.mk "D" [], .mk "E" []]).children.length →
        ∃ ci cj,
          (mindMapLayout exTree ∅).1.find?
              (fun n => n.id = encodePos ([1] ++ [i])) = some ci
          ∧ (mindMapLayout exTree ∅).1.find?
              (fun n => n.id = encodePos ([1] ++ [j])) = some cj
          ∧ cj.y = ci.y + ((j : ℚ) - (i : ℚ)) * 120
          ∧ ci.y + 120 ≤ cj.y) := by
  have h1 : subtreeAt exTree [1] = some (.mk "C" [.mk "D" [], .mk "E" []]) := rfl
  have h2 : IsVisible ∅ exTree [1] := by
    constructor
    · rfl
    · intro q r t hqr hr hsub hch
      simp
  have h3 : (MindMapData.mk "C" [.mk "D" [], .mk "E" []]).children ≠ [] := by
    simp [MindMapData.children]
  have h4 : encodePos [1] ∉ (∅ : Finset String) := by simp
  have h5 : ∀ (j : Nat) (c : MindMapData),
      (MindMapData.mk "C" [.mk "D" [], .mk "E" []]).children[j]? = some c →
      c.children = [] ∨ encodePos ([1] ++ [j]) ∈ (∅ : Finset String) := by
    intro j c hc
    left
    simp only [MindMapData.children] at hc
    rcases j with _ | _ | j
    · simp only [List.getElem?_cons_zero, Option.some.injEq] at hc
      rw [← hc]
      rfl
    · simp only [List.getElem?_cons_succ, List.getElem?_cons_zero,
        Option.some.injEq] at hc
      rw [← hc]
      rfl
    · simp at hc
  exact ⟨⟨h1, h2, h3, h4, h5⟩, claim_C7 exTree ∅ [1] _ h1 h2 h3 h4 h5⟩

/-- Witness for C9 (amended): the single-node tree, toggling the root leaf id
on the empty set. -/
theorem claim_C9_amended_witness :
    (subtreeAt leafTree [] = some leafTree ∧ leafTree.children = [])
    ∧ (((mindMapLayout leafTree (onToggle ∅ (encodePos []))).1.map
          (clearAt (encodePos []))
        = (mindMapLayout leafTree ∅).1.map (clearAt (encodePos [])))
      ∧ (mindMapLayout leafTree (onToggle ∅ (encodePos []))).2.1
        = (mindMapLayout leafTree ∅).2.1
      ∧ (mindMapLayout leafTree (onToggle ∅ (encodePos []))).2.2
        = (mindMapLayout leafTree ∅).2.2
      ∧ ((encodePos [] ∈ onToggle ∅ (encodePos [])) ↔ encodePos [] ∉ (∅ : Finset String))) := by
  have h1 : subtreeAt leafTree [] = some leafTree := rfl
  have h2 : leafTree.children = [] := rfl
  exact ⟨⟨h1, h2⟩, claim_C9_amended leafTree ∅ [] leafTree h1 h2⟩

/-- Witness for C10: the top-level call on the scenario tree with the empty
accumulator and cursor 0. -/
theorem claim_C10_witness :
    (Fresh [] (nodeIdOf none 0) ∧ (0 : ℚ) ≤ 0)
    ∧ ((∃ NN NE H, generateMindMapNodesAndEdges exTree ∅ none [] [] 0 0 0
          = ([] ++ NN, [] ++ NE, H) ∧ ∀ n ∈ NN, (0 : ℚ) ≤ n.y)
      ∧ (∀ n ∈ (mindMapLayout exTree ∅).1, 0 ≤ n.y)
      ∧ mindMapLayout exTree ∅ = mindMapLayoutNF exTree ∅) := by
  have h1 : Fresh [] (nodeIdOf none 0) := by
    intro n hn
    simp at hn
  exact ⟨⟨h1, le_refl 0⟩, claim_C10 exTree ∅ none [] [] 0 0 0 h1 (le_refl 0)⟩

end MindMap
